import Mathlib

/-!
Verification of the Pi-hole AI Analyzer incremental-batch analysis cycle.

This file gives a shallow embedding, in Lean 4, of the core logic of the
repository (files main.py, ai_analyzer.py, storage_manager.py,
pihole_client.py) and proves properties of that embedding.

Modelling conventions:
* Python floats (query timestamps) are modelled as exact rationals (Rat);
  the code only compares, maxes and truth-tests them.
* Python dict/None dynamics are modelled with Option; a field read via
  d.get(k) is an Option-valued field.
* json.loads is modelled by an executable recursive-descent JSON parser
  producing a Json value; JSON numbers are modelled as exact rationals.
* External effects (HTTP authentication, query fetch, the Gemini call,
  the sqlite INSERT, SMTP delivery, the wall clock and the local-timezone
  timestamp formatter) are inputs of the cycle function: oracles whose
  values the cycle consumes.
* An unhandled Python exception (e.g. AttributeError on a malformed
  classifier reply item) is modelled as a distinguished crashed exit of
  the cycle; side effects performed before the exception are retained,
  and nothing after the raise point (in particular the watermark write)
  happens.
-/

namespace PiholeAI

/-! ## Python string/number primitives -/

/-- Whitespace characters removed by the Python str.strip() used in
ai_analyzer.py (ASCII whitespace). -/
def pyIsSpace (c : Char) : Bool :=
  c == ' ' || c == '\t' || c == '\n' || c == '\r' || c == '\x0b' || c == '\x0c'

/-- Python str.strip(): drop leading and trailing whitespace. -/
def pyStrip (cs : List Char) : List Char :=
  ((cs.dropWhile pyIsSpace).reverse.dropWhile pyIsSpace).reverse

/-- Python string comparison a <= b: lexicographic on code points. -/
def strLeChars : List Char → List Char → Bool
  | [], _ => true
  | _ :: _, [] => false
  | a :: as, b :: bs =>
    if a.toNat < b.toNat then true
    else if b.toNat < a.toNat then false
    else strLeChars as bs

/-- Insert a string into a sorted list (used to model Python sorted). -/
def insertSorted (x : String) : List String → List String
  | [] => [x]
  | y :: ys => if strLeChars x.toList y.toList then x :: y :: ys else y :: insertSorted x ys

/-- Python sorted(...) on strings (insertion sort; the inputs we sort are
duplicate-free, for which every correct sort returns the same list). -/
def sortStrings (l : List String) : List String := l.foldr insertSorted []

/-- Keep the first occurrence of each element (models iterating a Python
set built from a list, up to order, and first-seen orders elsewhere). -/
def dedupAux : List String → List String → List String
  | [], _ => []
  | x :: xs, seen =>
    if seen.contains x then dedupAux xs seen else x :: dedupAux xs (x :: seen)

/-- First-seen-order deduplication of a list of strings. -/
def dedupFirst (l : List String) : List String := dedupAux l []

/-- Python max(...) over a list of numbers: None models the ValueError
raised on an empty sequence. -/
def pyMax : List Rat → Option Rat
  | [] => none
  | x :: xs => some (xs.foldl max x)

/-- Truthiness of an optional string (Python: None and the empty string
are falsy). -/
def pyTruthyS : Option String → Bool
  | none => false
  | some s => s != ""

/-- Truthiness of an optional number (Python: None and 0.0 are falsy). -/
def pyTruthyT : Option Rat → Bool
  | none => false
  | some t => t != 0

/-! ## JSON values (the result of json.loads) -/

/-- A decoded JSON value, as produced by json.loads.  Python maps JSON
null to None; we identify the two as Json.null.  Numbers are modelled as
exact rationals. -/
inductive Json where
  | null
  | bool (b : Bool)
  | num (q : Rat)
  | str (s : String)
  | arr (elts : List Json)
  | obj (entries : List (String × Json))

/-- Python truthiness of a decoded JSON value. -/
def Json.truthy : Json → Bool
  | .null => false
  | .bool b => b
  | .num q => q != 0
  | .str s => s != ""
  | .arr xs => !xs.isEmpty
  | .obj kvs => !kvs.isEmpty

/-- Python == between two hashable JSON-derived dict keys (bool compares
equal to the corresponding number, as in Python). -/
def Json.keyEq : Json → Json → Bool
  | .null, .null => true
  | .bool a, .bool b => a == b
  | .bool a, .num q => q == (if a then 1 else 0)
  | .num q, .bool a => q == (if a then 1 else 0)
  | .num a, .num b => a == b
  | .str a, .str b => a == b
  | _, _ => false

/-- Whether a JSON value may be used as a Python dict key (lists and
dicts are unhashable and raise TypeError). -/
def Json.hashable : Json → Bool
  | .arr _ => false
  | .obj _ => false
  | _ => true

/-- First-match lookup in a string-keyed association list. -/
def lookupStr : List (String × Json) → String → Option Json
  | [], _ => none
  | (k, v) :: rest, key => if k == key then some v else lookupStr rest key

/-- Position-preserving dict assignment d[k] = v (first insertion fixes
the position, later assignments replace the value), as in Python dicts
and in json.loads duplicate-key handling. -/
def dictAssign : List (String × Json) → String → Json → List (String × Json)
  | [], k, v => [(k, v)]
  | (k0, v0) :: rest, k, v =>
    if k0 == k then (k0, v) :: rest else (k0, v0) :: dictAssign rest k v

/-- Python item.get(k): none models the AttributeError raised when item
is not a dict; an absent key yields null (Python None). -/
def Json.pyGet : Json → String → Option Json
  | .obj kvs, k => some ((lookupStr kvs k).getD .null)
  | _, _ => none

/-- Python item.get(k, default): none models the AttributeError raised
when item is not a dict. -/
def Json.pyGetD : Json → String → Json → Option Json
  | .obj kvs, k, d => some ((lookupStr kvs k).getD d)
  | _, _, _ => none

/-! ## json.loads (recursive-descent JSON parser) -/

/-- JSON insignificant whitespace. -/
def isJsonWs (c : Char) : Bool := c == ' ' || c == '\t' || c == '\n' || c == '\r'

/-- Skip JSON whitespace. -/
def skipWs (cs : List Char) : List Char := cs.dropWhile isJsonWs

/-- Value of one hexadecimal digit. -/
def hexVal (c : Char) : Option Nat :=
  if '0' ≤ c ∧ c ≤ '9' then some (c.toNat - '0'.toNat)
  else if 'a' ≤ c ∧ c ≤ 'f' then some (c.toNat - 'a'.toNat + 10)
  else if 'A' ≤ c ∧ c ≤ 'F' then some (c.toNat - 'A'.toNat + 10)
  else none

/-- Single-character JSON string escapes (the table of
json.decoder.BACKSLASH). -/
def escChar : Char → Option Char
  | '"' => some '"'
  | '\\' => some '\\'
  | '/' => some '/'
  | 'b' => some (Char.ofNat 8)
  | 'f' => some (Char.ofNat 12)
  | 'n' => some '\n'
  | 'r' => some '\r'
  | 't' => some '\t'
  | _ => none

/-- Parse the remainder of a JSON string literal (after the opening
quote), returning the decoded characters and the rest of the input. -/
def parseStrChars : Nat → List Char → Option (List Char × List Char)
  | 0, _ => none
  | _ + 1, [] => none
  | fuel + 1, c :: rest =>
    if c == '"' then some ([], rest)
    else if c == '\\' then
      match rest with
      | [] => none
      | e :: rest2 =>
        if e == 'u' then
          match rest2 with
          | a :: b :: c3 :: d :: rest3 =>
            match hexVal a, hexVal b, hexVal c3, hexVal d with
            | some ha, some hb, some hc, some hd =>
              match parseStrChars fuel rest3 with
              | some (out, rem) =>
                some (Char.ofNat (((ha * 16 + hb) * 16 + hc) * 16 + hd) :: out, rem)
              | none => none
            | _, _, _, _ => none
          | _ => none
        else
          match escChar e with
          | some ec =>
            match parseStrChars fuel rest2 with
            | some (out, rem) => some (ec :: out, rem)
            | none => none
          | none => none
    else
      match parseStrChars fuel rest with
      | some (out, rem) => some (c :: out, rem)
      | none => none

/-- Digits to a natural number. -/
def digitsToNat (ds : List Char) : Nat :=
  ds.foldl (fun a c => a * 10 + (c.toNat - 48)) 0

/-- Parse a JSON number (integer part, optional fraction, optional
exponent) into an exact rational. -/
def parseNumber (cs : List Char) : Option (Rat × List Char) :=
  let negAndRest : Bool × List Char :=
    match cs with
    | '-' :: t => (true, t)
    | _ => (false, cs)
  let neg := negAndRest.1
  let cs1 := negAndRest.2
  let intDs := cs1.takeWhile Char.isDigit
  let cs2 := cs1.drop intDs.length
  if intDs.isEmpty then none
  else if intDs.length > 1 && intDs.headD '0' == '0' then none
  else
    let fracAndRest : List Char × List Char :=
      match cs2 with
      | '.' :: t => (t.takeWhile Char.isDigit, t.drop (t.takeWhile Char.isDigit).length)
      | _ => ([], cs2)
    let fracDs := fracAndRest.1
    let cs3 := fracAndRest.2
    let hadDot : Bool := match cs2 with | '.' :: _ => true | _ => false
    if hadDot && fracDs.isEmpty then none
    else
      let expParse : Option (Bool × List Char × List Char) :=
        match cs3 with
        | c :: t =>
          if c == 'e' || c == 'E' then
            match t with
            | s :: t2 =>
              if s == '+' then
                some (false, t2.takeWhile Char.isDigit, t2.drop (t2.takeWhile Char.isDigit).length)
              else if s == '-' then
                some (true, t2.takeWhile Char.isDigit, t2.drop (t2.takeWhile Char.isDigit).length)
              else
                some (false, t.takeWhile Char.isDigit, t.drop (t.takeWhile Char.isDigit).length)
            | [] => some (false, [], [])
          else none
        | [] => none
      match expParse with
      | some (expNeg, expDs, cs4) =>
        if expDs.isEmpty then none
        else
          let base : Rat := (digitsToNat intDs : Rat) +
            (digitsToNat fracDs : Rat) / ((10 : Rat) ^ fracDs.length)
          let e : Int := if expNeg then -(digitsToNat expDs : Int) else (digitsToNat expDs : Int)
          let mag : Rat := base * (10 : Rat) ^ e
          some ((if neg then -mag else mag), cs4)
      | none =>
        if fracDs.isEmpty then
          let base : Rat := (digitsToNat intDs : Rat)
          some ((if neg then -base else base), cs3)
        else
          let base : Rat := (digitsToNat intDs : Rat) +
            (digitsToNat fracDs : Rat) / ((10 : Rat) ^ fracDs.length)
          some ((if neg then -base else base), cs3)

mutual

/-- Parse one JSON value; fuel bounds the recursion depth. -/
def parseValue : Nat → List Char → Option (Json × List Char)
  | 0, _ => none
  | fuel + 1, cs =>
    match skipWs cs with
    | [] => none
    | c :: rest =>
      if c == '{' then
        match skipWs rest with
        | '}' :: r2 => some (.obj [], r2)
        | r => parseMembers fuel r []
      else if c == '[' then
        match skipWs rest with
        | ']' :: r2 => some (.arr [], r2)
        | r => parseElems fuel r []
      else if c == '"' then
        match parseStrChars (rest.length + 1) rest with
        | some (sc, rem) => some (.str (String.mk sc), rem)
        | none => none
      else if c == 't' then
        if ("rue".toList).isPrefixOf rest then some (.bool true, rest.drop 3) else none
      else if c == 'f' then
        if ("alse".toList).isPrefixOf rest then some (.bool false, rest.drop 4) else none
      else if c == 'n' then
        if ("ull".toList).isPrefixOf rest then some (.null, rest.drop 3) else none
      else
        match parseNumber (c :: rest) with
        | some (q, rem) => some (.num q, rem)
        | none => none

/-- Parse the elements of a non-empty JSON array (after the opening
bracket and any leading whitespace). -/
def parseElems : Nat → List Char → List Json → Option (Json × List Char)
  | 0, _, _ => none
  | fuel + 1, cs, acc =>
    match parseValue fuel cs with
    | none => none
    | some (v, rem) =>
      match skipWs rem with
      | ',' :: r2 => parseElems fuel r2 (acc ++ [v])
      | ']' :: r2 => some (.arr (acc ++ [v]), r2)
      | _ => none

/-- Parse the members of a non-empty JSON object (after the opening
brace and any leading whitespace). -/
def parseMembers : Nat → List Char → List (String × Json) → Option (Json × List Char)
  | 0, _, _ => none
  | fuel + 1, cs, acc =>
    match skipWs cs with
    | '"' :: rest =>
      match parseStrChars (rest.length + 1) rest with
      | some (kc, rem) =>
        match skipWs rem with
        | ':' :: r2 =>
          match parseValue fuel r2 with
          | none => none
          | some (v, r3) =>
            match skipWs r3 with
            | ',' :: r4 => parseMembers fuel r4 (dictAssign acc (String.mk kc) v)
            | '}' :: r4 => some (.obj (dictAssign acc (String.mk kc) v), r4)
            | _ => none
        | _ => none
      | none => none
    | _ => none

end

/-- Python json.loads on a character list: parse one value and require
only whitespace after it.  (NaN/Infinity extensions are not modelled;
no classifier reply we reason about uses them.) -/
def jsonLoads (cs : List Char) : Option Json :=
  match parseValue (4 * cs.length + 16) cs with
  | some (v, rem) => if (skipWs rem).isEmpty then some v else none
  | none => none

/-! ## ai_analyzer.py: reply cleaning and analyze_dns_batch -/

/-- The three-backtick code-fence marker. -/
def fence3 : List Char := "```".toList

/-- The code-fence marker with the json language tag. -/
def fenceJsonTag : List Char := "```json".toList

/-- The reply-cleaning steps of ai_analyzer.analyze_dns_batch (lines
118-126): strip, drop a leading three-backtick-json marker (7 chars),
drop a leading three-backtick marker (3 chars), drop a trailing
three-backtick marker, strip again. -/
def cleanChars (cs : List Char) : List Char :=
  let t0 := pyStrip cs
  let t1 := if fenceJsonTag.isPrefixOf t0 then t0.drop 7 else t0
  let t2 := if fence3.isPrefixOf t1 then t1.drop 3 else t1
  let t3 := if fence3.isSuffixOf t2 then t2.take (t2.length - 3) else t2
  pyStrip t3

/-- The classifier-reply parser of analyze_dns_batch: clean the raw
reply text, json.loads it, and require the top-level value to be a
list.  none covers both the JSONDecodeError path and the
expected-a-list validation failure (both return None in the source). -/
def parseReply (s : String) : Option (List Json) :=
  match jsonLoads (cleanChars s.toList) with
  | some (.arr xs) => some xs
  | some _ => none
  | none => none

/-- A processed query dict, as built by pihole_client.get_recent_queries
(each field read with .get, hence optional). -/
structure PQuery where
  id : Option Int
  timestamp : Option Rat
  qtype : Option String
  status : Option String
  domain : Option String
  client_ip : Option String
  client_name : Option String
  upstream : Option String
  list_id : Option Int
deriving DecidableEq

/-- A raw Pi-hole API query record, with the fields get_recent_queries
reads from it (client is a nested dict with ip and name). -/
structure RawRecord where
  id : Option Int
  time : Option Rat
  qtype : Option String
  status : Option String
  domain : Option String
  clientIp : Option String
  clientName : Option String
  upstream : Option String
  list_id : Option Int
deriving DecidableEq

/-- Field extraction for one record (pihole_client.py lines 130-141). -/
def toProcessed (q : RawRecord) : PQuery :=
  ⟨q.id, q.time, q.qtype, q.status, q.domain, q.clientIp, q.clientName, q.upstream,
    if q.status == some "GRAVITY" then q.list_id else none⟩

/-- The normalization filter of get_recent_queries (lines 143-146): a
processed query is kept only when both domain and timestamp are
truthy. -/
def processQueries (raw : List RawRecord) : List PQuery :=
  (raw.map toProcessed).filter (fun p => pyTruthyS p.domain && pyTruthyT p.timestamp)

/-- A query that passed the normalization filter: truthy domain and
truthy timestamp. -/
def normalizedQ (q : PQuery) : Bool :=
  pyTruthyS q.domain && pyTruthyT q.timestamp

/-- The unique-domain extraction of analyze_dns_batch (line 57):
sorted(list(set(item domain for item in list if item.get(domain)))). -/
def sortedUniqueDomains (qs : List PQuery) : List String :=
  sortStrings (dedupFirst (qs.filterMap (fun q =>
    match q.domain with
    | some d => if d != "" then some d else none
    | none => none)))

/-- ai_analyzer.analyze_dns_batch.  modelConfigured is whether the
module-level Gemini model object is configured; apiReply is the
response text of the generate_content call, none modelling any
exception raised by the call.  Returns the parsed analysis list, [] on
the no-input short-circuits, or none on every failure path. -/
def analyze_dns_batch (modelConfigured : Bool) (apiReply : Option String)
    (dns_query_list : List PQuery) : Option (List Json) :=
  if !modelConfigured then none
  else if dns_query_list.isEmpty then some []
  else
    let unique_domains := sortedUniqueDomains dns_query_list
    if unique_domains.isEmpty then some []
    else
      match apiReply with
      | none => none
      | some text => parseReply text

/-! ## storage_manager.py: save_finding -/

/-- A Finding as passed to storage_manager.save_finding.  The reason
argument is whatever JSON value the classifier returned for the domain
(the source passes it through unchecked). -/
structure Finding where
  query_timestamp : Option Rat
  client_ip : Option String
  domain : String
  category : String
  reason : Json
  source : String

/-- The pure validation of save_finding (storage_manager.py lines
87-99): a configured database path, the all([...]) truthiness check on
query_timestamp, domain, category and source, and the closed source
enum.  Exactly when this is true does the function reach the sqlite
INSERT. -/
def save_finding_passes (dbConfigured : Bool) (query_timestamp : Option Rat)
    (domain category source : String) : Bool :=
  dbConfigured &&
    (pyTruthyT query_timestamp && domain != "" && category != "" && source != "") &&
    (source == "AI" || source == "SafeBrowsing")

/-- storage_manager.save_finding: validation followed by the INSERT,
whose success is the insertOk oracle (sqlite errors are caught and
reported as False).  client_ip and reason are stored but take no part
in the validation, exactly as in the source. -/
def save_finding (dbConfigured : Bool) (insertOk : Bool) (query_timestamp : Option Rat)
    (client_ip : Option String) (domain category : String) (reason : Json)
    (source : String) : Bool :=
  if !dbConfigured then false
  else if !(pyTruthyT query_timestamp && domain != "" && category != "" && source != "") then false
  else if !(source == "AI" || source == "SafeBrowsing") then false
  else insertOk

/-! ## main.py: the analysis cycle -/

/-- The alert-category set of main.py (NOTIFY_CATEGORIES). -/
def NOTIFY_CATEGORIES : List String :=
  ["Malicious", "Illegal", "AdultContent", "Gambling", "Suspicious"]

/-- One timestamp/client context entry of the domain map (the dict
literal built at main.py lines 138-141). -/
structure Ctx where
  timestamp : Option Rat
  client_ip : Option String
deriving DecidableEq

/-- One entry of findings_for_notification (main.py lines 227-234). -/
structure Notif where
  timestamp : Option Rat
  client_ip : Option String
  domain : String
  category : String
  reason : Json
  source : String

/-- The Finding carrying the same data as a notification entry. -/
def Notif.toFinding (n : Notif) : Finding :=
  ⟨n.timestamp, n.client_ip, n.domain, n.category, n.reason, n.source⟩

/-- The new-query filter of main.py lines 112-115:
q.get(timestamp) and q[timestamp] > last_check_time. -/
def isNewQuery (last_check_time : Rat) (q : PQuery) : Bool :=
  match q.timestamp with
  | some t => t != 0 && last_check_time < t
  | none => false

/-- The generator timestamp for q in qs if q.get(timestamp): the truthy
timestamps of a query list, in order. -/
def truthyTimestamps (qs : List PQuery) : List Rat :=
  qs.filterMap (fun q =>
    match q.timestamp with
    | some t => if t != 0 then some t else none
    | none => none)

/-- Append one context entry under a domain, inserting the key at the
end on first sight (Python dict insertion-order semantics). -/
def addQueryCtx (m : List (String × List Ctx)) (d : String) (c : Ctx) :
    List (String × List Ctx) :=
  match m with
  | [] => [(d, [c])]
  | (k, cs) :: rest =>
    if k == d then (k, cs ++ [c]) :: rest else (k, cs) :: addQueryCtx rest d c

/-- One iteration of the map-building loop of main.py lines 133-141:
skip a falsy domain, else append the context entry under the domain. -/
def domStep (m : List (String × List Ctx)) (q : PQuery) : List (String × List Ctx) :=
  match q.domain with
  | some d => if d != "" then addQueryCtx m d ⟨q.timestamp, q.client_ip⟩ else m
  | none => m

/-- The domain-to-context map of main.py lines 132-141, built over the
new queries; entries with a falsy domain are skipped. -/
def buildDomainMap (new_queries : List PQuery) : List (String × List Ctx) :=
  new_queries.foldl domStep []

/-- The truthy domains of a query list, in batch order (the domains the
map-building loop actually inserts). -/
def truthyDomains (qs : List PQuery) : List String :=
  qs.filterMap (fun q =>
    match q.domain with
    | some d => if d != "" then some d else none
    | none => none)

/-- First-match lookup in the domain map (Python dict lookup; the keys
are pairwise distinct by construction). -/
def lookupCtxs : List (String × List Ctx) → String → Option (List Ctx)
  | [], _ => none
  | (k, cs) :: rest, d => if k == d then some cs else lookupCtxs rest d

/-- All context entries of one domain across a batch, in batch order
(the reference value of the domain map entry for that domain). -/
def ctxsOf (d : String) (qs : List PQuery) : List Ctx :=
  (qs.filter (fun q => q.domain == some d)).map (fun q => ⟨q.timestamp, q.client_ip⟩)

/-- First-match lookup in a JSON-keyed dict using Python key equality. -/
def jdictFind : List (Json × Json) → Json → Option Json
  | [], _ => none
  | (k, v) :: rest, key => if Json.keyEq k key then some v else jdictFind rest key

/-- Position-preserving assignment in a JSON-keyed dict. -/
def jdictAssign (m : List (Json × Json)) (k v : Json) : List (Json × Json) :=
  match m with
  | [] => [(k, v)]
  | (k0, v0) :: rest =>
    if Json.keyEq k0 k then (k0, v) :: rest else (k0, v0) :: jdictAssign rest k v

/-- The ai_findings_map dict comprehension of main.py line 202:
item[domain] maps to item, for items whose domain value is truthy.
none models the two crash modes: item.get on a non-dict item
(AttributeError) and an unhashable domain value used as a dict key
(TypeError). -/
def buildAiMapAux : List Json → List (Json × Json) → Option (List (Json × Json))
  | [], acc => some acc
  | item :: rest, acc =>
    match item.pyGet "domain" with
    | none => none
    | some dv =>
      if dv.truthy then
        if dv.hashable then buildAiMapAux rest (jdictAssign acc dv item) else none
      else buildAiMapAux rest acc

/-- Build ai_findings_map from the classifier result list. -/
def buildAiMap (results : List Json) : Option (List (Json × Json)) :=
  buildAiMapAux results []

/-- The strings produced by iterating a Python value derived from JSON:
a list must contain only strings (else the join raises TypeError), a
string iterates its characters, a dict iterates its keys; any other
value is not iterable.  none models the TypeError crash. -/
def strListOfJsons : List Json → Option (List String)
  | [] => some []
  | .str s :: rest => (strListOfJsons rest).map (fun l => s :: l)
  | _ => none

/-- Python iteration over the categories value, as consumed by the
", ".join and the any(cat in NOTIFY_CATEGORIES ...) at main.py lines
214 and 226. -/
def pyIterStrs : Json → Option (List String)
  | .str s => some (s.toList.map (fun c => String.mk [c]))
  | .arr xs => strListOfJsons xs
  | .obj kvs => some (kvs.map (fun kv => kv.1))
  | _ => none

/-- The per-domain accumulators of the findings loop. -/
structure LoopAcc where
  attempted : List Finding
  stored : List Finding
  notify : List Notif
  processed : List String

/-- The body of the findings loop of main.py lines 204-235 for one
domain-map entry.  none models an unhandled exception (AttributeError
on a non-dict classifier item reached through the map, TypeError in
the category join, IndexError on an empty context list). -/
def processDomain (dbConfigured : Bool) (insertOk : Finding → Bool)
    (aiMap : List (Json × Json)) (acc : LoopAcc) (domain : String)
    (query_details_list : List Ctx) : Option LoopAcc :=
  match jdictFind aiMap (.str domain) with
  | none => some acc
  | some ai_result =>
    if acc.processed.contains domain then some acc
    else
      match ai_result.pyGetD "categories" (.arr []),
            ai_result.pyGetD "reason" (.str "AI analysis result.") with
      | some ai_categories, some ai_reason =>
        if ai_categories.truthy then
          match query_details_list with
          | [] => none
          | first :: _ =>
            match pyIterStrs ai_categories with
            | none => none
            | some cats =>
              let joined_categories := String.intercalate ", " cats
              let f : Finding :=
                ⟨first.timestamp, first.client_ip, domain, joined_categories, ai_reason, "AI"⟩
              let success := save_finding dbConfigured (insertOk f) first.timestamp
                first.client_ip domain joined_categories ai_reason "AI"
              let attempted2 :=
                if save_finding_passes dbConfigured first.timestamp domain joined_categories "AI"
                then acc.attempted ++ [f] else acc.attempted
              let stored2 := if success then acc.stored ++ [f] else acc.stored
              let notify2 :=
                if success && cats.any (fun c => NOTIFY_CATEGORIES.contains c)
                then acc.notify ++
                  [⟨first.timestamp, first.client_ip, domain, joined_categories, ai_reason, "AI"⟩]
                else acc.notify
              some ⟨attempted2, stored2, notify2, acc.processed ++ [domain]⟩
        else some acc
      | _, _ => none

/-- The findings loop over the domain map entries.  The boolean result
is the crashed flag; on a crash the accumulators collected before the
raise point are retained (those side effects already happened). -/
def processFindingsLoop (dbConfigured : Bool) (insertOk : Finding → Bool)
    (aiMap : List (Json × Json)) :
    List (String × List Ctx) → LoopAcc → LoopAcc × Bool
  | [], acc => (acc, false)
  | (d, ctxs) :: rest, acc =>
    match processDomain dbConfigured insertOk aiMap acc d ctxs with
    | none => (acc, true)
    | some acc2 => processFindingsLoop dbConfigured insertOk aiMap rest acc2

/-- Decimal rendering of a rational (used only for the str() of a
non-string JSON number reaching the digest; Python would render the
underlying float). -/
def ratStr (q : Rat) : String :=
  if q.den == 1 then toString q.num else toString q.num ++ "/" ++ toString q.den

/-- Python str() of a JSON-derived value, as interpolated by the
digest f-string.  String values render as themselves; every reply we
reason about carries a string (or absent) reason. -/
def pyStr : Json → String
  | .null => "None"
  | .bool b => if b then "True" else "False"
  | .num q => ratStr q
  | .str s => s
  | .arr xs => "[" ++ String.intercalate ", " (xs.attach.map (fun x => pyStr x.1)) ++ "]"
  | .obj kvs =>
    "\x7b" ++ String.intercalate ", " (kvs.attach.map (fun kv => kv.1.1 ++ ": " ++ pyStr kv.1.2)) ++ "\x7d"
decreasing_by
  · have h := List.sizeOf_lt_of_mem x.2
    simp only [Json.arr.sizeOf_spec]
    omega
  · obtain ⟨⟨k, v⟩, hm⟩ := kv
    have h := List.sizeOf_lt_of_mem hm
    simp only [Prod.mk.sizeOf_spec] at h
    simp only [Json.obj.sizeOf_spec]
    omega

/-- One body block of the notification digest (main.py lines 247-255).
none models the TypeError of datetime.fromtimestamp(None); fmtTime is
the local-timezone strftime oracle. -/
def renderBlock (fmtTime : Rat → String) (f : Notif) : Option String :=
  match f.timestamp with
  | none => none
  | some t =>
    some ("- Time: " ++ fmtTime t ++ "\n" ++
      "  Client: " ++ (match f.client_ip with
        | some ip => if ip != "" then ip else "Unknown"
        | none => "Unknown") ++ "\n" ++
      "  Domain: " ++ f.domain ++ "\n" ++
      "  Category: " ++ f.category ++ "\n" ++
      "  Source: " ++ f.source ++ "\n" ++
      "  Reason: " ++ (if f.reason.truthy then pyStr f.reason else "N/A") ++ "\n")

/-- The digest renderer of main.py lines 244-256: the subject f-string
and the newline-joined body lines (header line plus one block per
notification entry). -/
def renderDigest (fmtTime : Rat → String) (findings : List Notif) :
    Option (String × String) :=
  match findings.mapM (renderBlock fmtTime) with
  | none => none
  | some blocks =>
    some ("Pi-hole Alert: " ++ toString findings.length ++ " Noteworthy DNS Queries Detected",
      String.intercalate "\n"
        ("Pi-hole AI Analyzer detected the following noteworthy DNS queries:\n" :: blocks))

/-- How one cycle ended. -/
inductive ExitPath where
  | authFailed
  | fetchFailed
  | emptyFetch
  | noNewWork
  | completed
  | crashed
deriving DecidableEq

/-- The external world one cycle runs against: the authentication
result, the fetched (already normalized) query list, the loaded
watermark, the classifier configuration flag and raw reply text, the
storage configuration flag and per-INSERT success oracle, the SMTP
delivery result, and the timestamp formatter. -/
structure CycleInput where
  auth : Option String
  fetch : Option (List PQuery)
  lastCheck : Rat
  modelConfigured : Bool
  apiReply : Option String
  dbConfigured : Bool
  insertOk : Finding → Bool
  emailOk : Bool
  fmtTime : Rat → String

/-- The observable effects of one cycle: the watermark value written
(none when the file is never written), the findings that reached the
sqlite INSERT, the findings whose save returned success, the
notification candidates, the processed-domain set (in insertion
order), the digest if one was rendered, the email delivery result if a
send was attempted, and the exit path. -/
structure CycleEffects where
  watermarkWrite : Option Rat
  attempted : List Finding
  stored : List Finding
  notify : List Notif
  processed : List String
  digest : Option (String × String)
  emailResult : Option Bool
  exitPath : ExitPath

/-- A cycle end with no side effects at all. -/
def noEffects (e : ExitPath) : CycleEffects := ⟨none, [], [], [], [], none, none, e⟩

/-- Step 8 of main.py (lines 153-193): call the classifier on the new
queries restricted to the unique domains, but only when there is at
least one unique domain; otherwise ai_analysis_results stays None. -/
def classifierStage (inp : CycleInput) (new_queries : List PQuery)
    (unique_domains : List String) : Option (List Json) :=
  if !unique_domains.isEmpty then
    analyze_dns_batch inp.modelConfigured inp.apiReply
      (new_queries.filter (fun q =>
        match q.domain with
        | some d => unique_domains.contains d
        | none => false))
  else none

/-- Step 9 of main.py (lines 196-238): build ai_findings_map and run
the findings loop; a falsy (None or empty) classifier result skips the
whole block.  none models a crash while building the map. -/
def resultsStage (inp : CycleInput) (domain_query_map : List (String × List Ctx))
    (ai_analysis_results : Option (List Json)) : Option (LoopAcc × Bool) :=
  match ai_analysis_results with
  | some results =>
    if !results.isEmpty then
      match buildAiMap results with
      | none => none
      | some aiMap =>
        some (processFindingsLoop inp.dbConfigured inp.insertOk aiMap domain_query_map
          ⟨[], [], [], []⟩)
    else some (⟨[], [], [], []⟩, false)
  | none => some (⟨[], [], [], []⟩, false)

/-- Step 11 of main.py (lines 267-272): write the watermark with the
latest new-query timestamp when it is positive, else fall back to
max(last_check_time, max timestamp over the raw batch). -/
def finishWatermark (inp : CycleInput) (raw_queries : List PQuery) (latest : Rat)
    (acc : LoopAcc) (dg : Option (String × String)) (em : Option Bool) : CycleEffects :=
  if 0 < latest then
    ⟨some latest, acc.attempted, acc.stored, acc.notify, acc.processed, dg, em, .completed⟩
  else
    match pyMax (truthyTimestamps raw_queries) with
    | none => ⟨none, acc.attempted, acc.stored, acc.notify, acc.processed, dg, em, .crashed⟩
    | some m =>
      ⟨some (max inp.lastCheck m), acc.attempted, acc.stored, acc.notify, acc.processed,
        dg, em, .completed⟩

/-- Step 10 of main.py (lines 242-264): render and send the digest
when there are notification candidates, then advance the watermark. -/
def finishCycle (inp : CycleInput) (raw_queries : List PQuery) (latest : Rat)
    (acc : LoopAcc) : CycleEffects :=
  if !acc.notify.isEmpty then
    match renderDigest inp.fmtTime acc.notify with
    | none => ⟨none, acc.attempted, acc.stored, acc.notify, acc.processed, none, none, .crashed⟩
    | some sb => finishWatermark inp raw_queries latest acc (some sb) (some inp.emailOk)
  else finishWatermark inp raw_queries latest acc none none

/-- The body of run_analysis_cycle after authentication and fetch
succeeded. -/
def cycleCore (inp : CycleInput) (raw_queries : List PQuery) : CycleEffects :=
  if raw_queries.isEmpty then noEffects .emptyFetch
  else
    let new_queries := raw_queries.filter (isNewQuery inp.lastCheck)
    if new_queries.isEmpty then
      match pyMax (truthyTimestamps raw_queries) with
      | none => noEffects .crashed
      | some m =>
        ⟨some (max inp.lastCheck m), [], [], [], [], none, none, .noNewWork⟩
    else
      match pyMax (truthyTimestamps new_queries) with
      | none => noEffects .crashed
      | some latest_processed_query_time =>
        let domain_query_map := buildDomainMap new_queries
        match resultsStage inp domain_query_map
          (classifierStage inp new_queries (domain_query_map.map (fun e => e.1))) with
        | none => noEffects .crashed
        | some (acc, crashed) =>
          if crashed then
            ⟨none, acc.attempted, acc.stored, acc.notify, acc.processed, none, none, .crashed⟩
          else finishCycle inp raw_queries latest_processed_query_time acc

/-- main.run_analysis_cycle as a function of its external world. -/
def run_analysis_cycle (inp : CycleInput) : CycleEffects :=
  match inp.auth with
  | none => noEffects .authFailed
  | some _ =>
    match inp.fetch with
    | none => noEffects .fetchFailed
    | some raw_queries => cycleCore inp raw_queries

/-! ## The fenced-code-block wrapper (claim C8) -/

/-- Wrap a character sequence in a fenced code block: a leading line of
three backticks followed by a language tag, and a closing line of three
backticks. -/
def fenceChars (tag s : List Char) : List Char :=
  fence3 ++ tag ++ '\n' :: s ++ '\n' :: fence3

/-- Wrap a string in a fenced code block with the given language tag. -/
def fenceWrap (tag s : String) : String :=
  "```" ++ tag ++ "\n" ++ s ++ "\n" ++ "```"

/-- The invariant carried by the findings loop: every finding that
reached the INSERT passed the save_finding validation; every stored
finding had a successful INSERT, passed validation, and took its
representative context from the head of its domain-map entry; every
notification candidate corresponds to a stored finding whose category
list intersects the alert set. -/
def LoopInv (dbc : Bool) (ok : Finding → Bool) (dmap : List (String × List Ctx))
    (acc : LoopAcc) : Prop :=
  (∀ f ∈ acc.attempted,
    save_finding_passes dbc f.query_timestamp f.domain f.category f.source = true) ∧
  (∀ f ∈ acc.stored,
    ok f = true ∧
    save_finding_passes dbc f.query_timestamp f.domain f.category f.source = true ∧
    ∃ c cs, lookupCtxs dmap f.domain = some (c :: cs) ∧
      f.query_timestamp = c.timestamp ∧ f.client_ip = c.client_ip) ∧
  (∀ n ∈ acc.notify,
    n.toFinding ∈ acc.stored ∧
    ∃ cats : List String, n.category = String.intercalate ", " cats ∧
      cats.any (fun x => NOTIFY_CATEGORIES.contains x) = true)

/-- The empty loop accumulator (the loop starts here). -/
def emptyLoopAcc : LoopAcc := ⟨[], [], [], []⟩

/-! ## Concrete cycle worlds used by witnesses and counterexamples -/

/-- A classifier reply item with an empty category list. -/
def itemEmptyCatsA : Json :=
  .obj [("domain", .str "a.com"), ("categories", .arr []), ("reason", .str "benign")]

/-- An ai_findings_map carrying only the empty-categories item. -/
def aiMapEmptyCatsA : List (Json × Json) := [(.str "a.com", itemEmptyCatsA)]

/-- A normalized query for a.com at time 100. -/
def qNewA : PQuery :=
  ⟨some 1, some 100, some "A", some "FORWARDED", some "a.com", some "10.0.0.5", none, none, none⟩

/-- A second normalized query for a.com at time 120, different client. -/
def qNewA2 : PQuery :=
  ⟨some 2, some 120, some "A", some "FORWARDED", some "a.com", some "10.0.0.6", none, none, none⟩

/-- A normalized query for b.com at time 50 (older than the watermarks
used below). -/
def qOldB : PQuery :=
  ⟨some 3, some 50, some "A", some "GRAVITY", some "b.com", some "10.0.0.7", none, none, none⟩

/-- A classifier reply assigning a.com the category Malicious. -/
def replyMaliciousA : String :=
  "[\x7b\"domain\": \"a.com\", \"categories\": [\"Malicious\"], \"reason\": \"bad\"\x7d]"

/-- A classifier reply assigning a.com an empty category list. -/
def replyEmptyCatsA : String :=
  "[\x7b\"domain\": \"a.com\", \"categories\": [], \"reason\": \"benign\"\x7d]"

/-- A valid-JSON-list classifier reply whose item is not a dict: Python
crashes on item.get in the ai_findings_map comprehension. -/
def replyNonDict : String := "[1]"

/-- A fully healthy world: auth and fetch succeed, the classifier flags
a.com, storage and email succeed. -/
def worldGood : CycleInput :=
  ⟨some "sid", some [qNewA, qNewA2, qOldB], 60, true, some replyMaliciousA, true,
    fun _ => true, true, fun _ => "2026-01-01 00:00:00"⟩

/-- Like worldGood but the classifier is unconfigured (GOOGLE_API_KEY
missing): the classifier returns a failure. -/
def worldNoModel : CycleInput :=
  ⟨some "sid", some [qNewA, qNewA2, qOldB], 60, false, none, true,
    fun _ => true, true, fun _ => "2026-01-01 00:00:00"⟩

/-- Like worldGood but the reply is not decodable JSON. -/
def worldBadJson : CycleInput :=
  ⟨some "sid", some [qNewA, qNewA2, qOldB], 60, true, some "I am not JSON", true,
    fun _ => true, true, fun _ => "2026-01-01 00:00:00"⟩

/-- Like worldGood but the reply is a JSON list whose item is not a
dict, which crashes the findings-map comprehension in main.py. -/
def worldCrash : CycleInput :=
  ⟨some "sid", some [qNewA, qNewA2, qOldB], 60, true, some replyNonDict, true,
    fun _ => true, true, fun _ => "2026-01-01 00:00:00"⟩

/-- Like worldCrash but with a single fetched query (used to exhibit a
crash-abort with no side effect at all). -/
def worldCrashOne : CycleInput :=
  ⟨some "sid", some [qNewA], 0, true, some replyNonDict, true,
    fun _ => true, true, fun _ => "2026-01-01 00:00:00"⟩

/-- Like worldGood but every sqlite INSERT fails. -/
def worldStoreFail : CycleInput :=
  ⟨some "sid", some [qNewA, qNewA2, qOldB], 60, true, some replyMaliciousA, true,
    fun _ => false, true, fun _ => "2026-01-01 00:00:00"⟩

/-- Like worldGood but the classifier returns an empty category list
for a.com. -/
def worldEmptyCats : CycleInput :=
  ⟨some "sid", some [qNewA, qNewA2, qOldB], 60, true, some replyEmptyCatsA, true,
    fun _ => true, true, fun _ => "2026-01-01 00:00:00"⟩

/-- A notification candidate as built by the worldGood cycle. -/
def notifGoodA : Notif :=
  ⟨some 100, some "10.0.0.5", "a.com", "Malicious", .str "bad", "AI"⟩

/-! ## Lemmas about stripping and cleaning -/

theorem dropWhile_dropWhile (p : Char → Bool) (l : List Char) :
    (l.dropWhile p).dropWhile p = l.dropWhile p := by
  induction l with
  | nil => rfl
  | cons a l ih =>
    by_cases h : p a
    · simp [List.dropWhile_cons, h, ih]
    · simp [List.dropWhile_cons, h]

theorem dropWhile_eq_self_of_prefix (p : Char → Bool) (l q : List Char)
    (hl : l.dropWhile p = l) (hq : q <+: l) : q.dropWhile p = q := by
  cases q with
  | nil => rfl
  | cons a t =>
    obtain ⟨r, hr⟩ := hq
    have ha : p a = false := by
      by_contra hcon
      have hpa : p a = true := by
        cases hpa2 : p a
        · exact absurd hpa2 hcon
        · rfl
      rw [← hr, List.cons_append] at hl
      have hstep : (a :: (t ++ r)).dropWhile p = (t ++ r).dropWhile p := by
        rw [List.dropWhile_cons, hpa]
        simp
      rw [hstep] at hl
      have hlen := (List.dropWhile_sublist (l := t ++ r) p).length_le
      rw [hl] at hlen
      simp at hlen
    simp [List.dropWhile_cons, ha]

theorem pyStrip_idem (l : List Char) : pyStrip (pyStrip l) = pyStrip l := by
  have h1 : (l.dropWhile pyIsSpace).dropWhile pyIsSpace = l.dropWhile pyIsSpace :=
    dropWhile_dropWhile _ _
  have hq_pre : ((l.dropWhile pyIsSpace).reverse.dropWhile pyIsSpace).reverse
      <+: l.dropWhile pyIsSpace := by
    rw [← List.reverse_suffix, List.reverse_reverse]
    exact ⟨_, List.takeWhile_append_dropWhile _ _⟩
  have h2 := dropWhile_eq_self_of_prefix pyIsSpace _ _ h1 hq_pre
  show pyStrip (((l.dropWhile pyIsSpace).reverse.dropWhile pyIsSpace).reverse) = _
  rw [pyStrip, h2, List.reverse_reverse, dropWhile_dropWhile]
  rfl

theorem pyStrip_cons_space (c : Char) (l : List Char) (h : pyIsSpace c = true) :
    pyStrip (c :: l) = pyStrip l := by
  simp [pyStrip, List.dropWhile_cons, h]

theorem pyStrip_append_space (c : Char) (l : List Char) (h : pyIsSpace c = true) :
    pyStrip (l ++ [c]) = pyStrip l := by
  rw [pyStrip, pyStrip, List.dropWhile_append]
  cases hx : (l.dropWhile pyIsSpace).isEmpty
  · simp only [Bool.false_eq_true, if_false]
    rw [List.reverse_append]
    simp [List.dropWhile_cons, h]
  · have he2 : l.dropWhile pyIsSpace = [] := by
      cases hy : l.dropWhile pyIsSpace
      · rfl
      · rw [hy] at hx
        simp at hx
    simp [he2, List.dropWhile_cons, h]

theorem pyStrip_sandwich (c d : Char) (A : List Char)
    (hc : pyIsSpace c = false) (hd : pyIsSpace d = false) :
    pyStrip (c :: (A ++ [d])) = c :: (A ++ [d]) := by
  rw [pyStrip]
  rw [List.dropWhile_cons, hc]
  simp only [Bool.false_eq_true, if_false]
  have h1 : (c :: (A ++ [d])).reverse = d :: (A.reverse ++ [c]) := by
    simp
  rw [h1, List.dropWhile_cons, hd]
  simp only [Bool.false_eq_true, if_false]
  simp

theorem isSuffixOf_append_self (A l : List Char) : l.isSuffixOf (A ++ l) = true := by
  rw [List.isSuffixOf]
  exact List.isPrefixOf_iff_prefix.mpr (by rw [List.reverse_append]; exact List.prefix_append _ _)

theorem fenceJsonTag_isPrefixOf_false (l : List Char)
    (h : fence3.isPrefixOf l = false) : fenceJsonTag.isPrefixOf l = false := by
  by_contra hcon
  have htrue : fenceJsonTag.isPrefixOf l = true := by
    cases h2 : fenceJsonTag.isPrefixOf l
    · exact absurd h2 hcon
    · rfl
  have hpre : fenceJsonTag <+: l := List.isPrefixOf_iff_prefix.mp htrue
  have h3 : fence3 <+: fenceJsonTag := ⟨"json".toList, rfl⟩
  have := List.isPrefixOf_iff_prefix.mpr (h3.trans hpre)
  rw [this] at h
  exact Bool.true_eq_false.mp h

theorem cleanChars_no_fence (s : List Char)
    (hpre : fence3.isPrefixOf (pyStrip s) = false)
    (hsuf : fence3.isSuffixOf (pyStrip s) = false) :
    cleanChars s = pyStrip s := by
  rw [cleanChars]
  rw [fenceJsonTag_isPrefixOf_false _ hpre]
  simp only [Bool.false_eq_true, if_false]
  rw [hpre]
  simp only [Bool.false_eq_true, if_false]
  rw [hsuf]
  simp only [Bool.false_eq_true, if_false]
  exact pyStrip_idem s

theorem pyStrip_newline_wrap (s : List Char) :
    pyStrip ('\n'::(s ++ ['\n'])) = pyStrip s := by
  rw [pyStrip_cons_space _ _ (by decide), pyStrip_append_space _ _ (by decide)]

theorem cleanChars_fence_json (s : List Char) :
    cleanChars (fenceChars "json".toList s) = pyStrip s := by
  have hshape : fenceChars "json".toList s
      = '`' :: (('`':: '`':: 'j':: 's':: 'o':: 'n':: '\n'::(s ++ ['\n', '`', '`'])) ++ ['`']) := by
    simp [fenceChars, fence3]
  rw [cleanChars, hshape, pyStrip_sandwich _ _ _ (by decide) (by decide)]
  have hnorm : ('`' : Char) :: (('`':: '`':: 'j':: 's':: 'o':: 'n':: '\n'::(s ++ ['\n', '`', '`'])) ++ ['`'])
      = '`':: '`':: '`':: 'j':: 's':: 'o':: 'n':: '\n'::(s ++ ['\n', '`', '`', '`']) := by
    simp
  rw [hnorm]
  have hpre1 : fenceJsonTag.isPrefixOf
      ('`':: '`':: '`':: 'j':: 's':: 'o':: 'n':: '\n'::(s ++ ['\n', '`', '`', '`'])) = true := rfl
  rw [hpre1]
  simp only [if_true]
  have hdrop : List.drop 7 ('`':: '`':: '`':: 'j':: 's':: 'o':: 'n':: '\n'::(s ++ ['\n', '`', '`', '`']))
      = '\n'::(s ++ ['\n', '`', '`', '`']) := rfl
  rw [hdrop]
  have hpre2 : fence3.isPrefixOf ('\n'::(s ++ ['\n', '`', '`', '`'])) = false := rfl
  rw [hpre2]
  simp only [Bool.false_eq_true, if_false]
  have hsplit : ('\n' : Char)::(s ++ ['\n', '`', '`', '`']) = ('\n'::(s ++ ['\n'])) ++ fence3 := by
    simp [fence3]
  rw [hsplit, isSuffixOf_append_self]
  simp only [if_true]
  have hlen : (('\n'::(s ++ ['\n'])) ++ fence3).length - 3 = ('\n'::(s ++ ['\n'])).length := by
    simp [fence3]
  rw [hlen, List.take_left]
  exact pyStrip_newline_wrap s

theorem cleanChars_fence_empty (s : List Char) :
    cleanChars (fenceChars [] s) = pyStrip s := by
  have hshape : fenceChars [] s
      = '`' :: (('`':: '`':: '\n'::(s ++ ['\n', '`', '`'])) ++ ['`']) := by
    simp [fenceChars, fence3]
  rw [cleanChars, hshape, pyStrip_sandwich _ _ _ (by decide) (by decide)]
  have hnorm : ('`' : Char) :: (('`':: '`':: '\n'::(s ++ ['\n', '`', '`'])) ++ ['`'])
      = '`':: '`':: '`':: '\n'::(s ++ ['\n', '`', '`', '`']) := by
    simp
  rw [hnorm]
  have hpre1 : fenceJsonTag.isPrefixOf
      ('`':: '`':: '`':: '\n'::(s ++ ['\n', '`', '`', '`'])) = false := rfl
  rw [hpre1]
  simp only [Bool.false_eq_true, if_false]
  have hpre2 : fence3.isPrefixOf ('`':: '`':: '`':: '\n'::(s ++ ['\n', '`', '`', '`'])) = true := rfl
  rw [hpre2]
  simp only [if_true]
  have hdrop : List.drop 3 ('`':: '`':: '`':: '\n'::(s ++ ['\n', '`', '`', '`']))
      = '\n'::(s ++ ['\n', '`', '`', '`']) := rfl
  rw [hdrop]
  have hsplit : ('\n' : Char)::(s ++ ['\n', '`', '`', '`']) = ('\n'::(s ++ ['\n'])) ++ fence3 := by
    simp [fence3]
  rw [hsplit, isSuffixOf_append_self]
  simp only [if_true]
  have hlen : (('\n'::(s ++ ['\n'])) ++ fence3).length - 3 = ('\n'::(s ++ ['\n'])).length := by
    simp [fence3]
  rw [hlen, List.take_left]
  exact pyStrip_newline_wrap s

theorem fenceWrap_toList (tag s : String) :
    (fenceWrap tag s).toList = fenceChars tag.toList s.toList := by
  simp [fenceWrap, fenceChars, fence3, String.toList, String.data_append]

/-- Claim C8 (amended): the classifier-reply parser treats a fenced
code block as transparent for the language tags the source actually
strips (json and the bare fence), provided the stripped reply text does
not itself start or end with a three-backtick run: for such s,
parse(fence(s)) = parse(s).  For any other language tag the tag text
survives into the JSON decode step and parsing differs (see the
counterexample), and a reply whose trimmed text ends in three backticks
also parses differently. -/
theorem C8_fence_transparency (tag s : String)
    (htag : tag = "json" ∨ tag = "")
    (hpre : fence3.isPrefixOf (pyStrip s.toList) = false)
    (hsuf : fence3.isSuffixOf (pyStrip s.toList) = false) :
    parseReply (fenceWrap tag s) = parseReply s := by
  have hclean : cleanChars (fenceWrap tag s).toList = cleanChars s.toList := by
    rw [fenceWrap_toList, cleanChars_no_fence s.toList hpre hsuf]
    rcases htag with h | h
    · rw [h]
      exact cleanChars_fence_json s.toList
    · rw [h]
      have hnil : ("" : String).toList = [] := rfl
      rw [hnil]
      exact cleanChars_fence_empty s.toList
  simp only [parseReply]
  rw [hclean]

/-- Claim C8 witness: a well-formed JSON reply wrapped in a json-tagged
fence parses identically to the bare reply. -/
theorem C8_fence_transparency_witness :
    parseReply (fenceWrap "json" "[]") = parseReply "[]" :=
  C8_fence_transparency "json" "[]" (Or.inl rfl) (by decide) (by decide)

/-- Claim C8 counterexample: the claim quantifies over every language
tag, but with the tag python the cleaning steps of analyze_dns_batch
leave the tag text in front of the JSON, so the fenced reply fails to
parse while the bare reply parses. -/
theorem C8_counterexample :
    parseReply "[]" = some [] ∧
    parseReply (fenceWrap "python" "[]") = none ∧
    parseReply (fenceWrap "python" "[]") ≠ parseReply "[]" := by
  refine ⟨rfl, rfl, fun h => ?_⟩
  rw [show parseReply (fenceWrap "python" "[]") = none from rfl,
    show parseReply "[]" = some [] from rfl] at h
  exact Option.noConfusion h

/-! ## Lemmas about pyMax and the timestamp lists -/

theorem le_foldl_max (xs : List Rat) (a : Rat) : a ≤ xs.foldl max a := by
  induction xs generalizing a with
  | nil => exact le_refl a
  | cons x xs ih => exact le_trans (le_max_left a x) (ih (max a x))

theorem foldl_max_mem (xs : List Rat) (a : Rat) :
    xs.foldl max a = a ∨ xs.foldl max a ∈ xs := by
  induction xs generalizing a with
  | nil => exact Or.inl rfl
  | cons x xs ih =>
    rcases ih (max a x) with h | h
    · rcases max_cases a x with ⟨he, _⟩ | ⟨he, _⟩
      · exact Or.inl (by rw [List.foldl_cons, h, he])
      · refine Or.inr ?_
        rw [List.foldl_cons, h, he]
        exact List.mem_cons_self x xs
    · exact Or.inr (List.mem_cons_of_mem _ h)

theorem mem_le_foldl_max (xs : List Rat) (a y : Rat) (hy : y ∈ xs) :
    y ≤ xs.foldl max a := by
  induction xs generalizing a with
  | nil => cases hy
  | cons x xs ih =>
    rcases List.mem_cons.mp hy with h | h
    · subst h
      exact le_trans (le_max_right a y) (le_foldl_max xs (max a y))
    · exact ih (max a x) h

theorem pyMax_spec (l : List Rat) (m : Rat) (h : pyMax l = some m) :
    m ∈ l ∧ ∀ y ∈ l, y ≤ m := by
  cases l with
  | nil => cases h
  | cons x xs =>
    have hm : m = xs.foldl max x := by
      have := h
      rw [pyMax] at this
      exact (Option.some.injEq _ _ ▸ this.symm :)
    constructor
    · rcases foldl_max_mem xs x with h2 | h2
      · rw [hm, h2]
        exact List.mem_cons_self x xs
      · rw [hm]
        exact List.mem_cons_of_mem _ h2
    · intro y hy
      rcases List.mem_cons.mp hy with h2 | h2
      · subst h2
        rw [hm]
        exact le_foldl_max xs y
      · rw [hm]
        exact mem_le_foldl_max xs x y h2

theorem pyMax_isSome (l : List Rat) (h : l ≠ []) : ∃ m, pyMax l = some m := by
  cases l with
  | nil => exact absurd rfl h
  | cons x xs => exact ⟨xs.foldl max x, rfl⟩

theorem mem_truthyTimestamps (qs : List PQuery) (t : Rat) :
    t ∈ truthyTimestamps qs ↔ ∃ q ∈ qs, q.timestamp = some t ∧ t ≠ 0 := by
  rw [truthyTimestamps, List.mem_filterMap]
  constructor
  · rintro ⟨q, hq, hf⟩
    refine ⟨q, hq, ?_⟩
    cases hts : q.timestamp with
    | none => rw [hts] at hf; cases hf
    | some u =>
      rw [hts] at hf
      by_cases hu : u = 0
      · subst hu
        simp at hf
      · simp [hu] at hf
        subst hf
        exact ⟨rfl, hu⟩
  · rintro ⟨q, hq, hts, ht0⟩
    refine ⟨q, hq, ?_⟩
    rw [hts]
    simp [ht0]

theorem isNewQuery_iff (last : Rat) (q : PQuery) :
    isNewQuery last q = true ↔ ∃ t, q.timestamp = some t ∧ t ≠ 0 ∧ last < t := by
  cases hts : q.timestamp with
  | none => simp [isNewQuery, hts]
  | some u => simp [isNewQuery, hts]

theorem normalizedQ_timestamp (q : PQuery) (h : normalizedQ q = true) :
    ∃ t, q.timestamp = some t ∧ t ≠ 0 := by
  have h2 : pyTruthyT q.timestamp = true := Bool.and_elim_right h
  cases hts : q.timestamp with
  | none =>
    rw [hts] at h2
    simp [pyTruthyT] at h2
  | some u =>
    rw [hts] at h2
    simp [pyTruthyT] at h2
    exact ⟨u, rfl, h2⟩

theorem normalizedQ_domain (q : PQuery) (h : normalizedQ q = true) :
    ∃ d, q.domain = some d ∧ d ≠ "" := by
  have h2 : pyTruthyS q.domain = true := Bool.and_elim_left h
  cases hd : q.domain with
  | none =>
    rw [hd] at h2
    simp [pyTruthyS] at h2
  | some d =>
    rw [hd] at h2
    simp [pyTruthyS] at h2
    exact ⟨d, rfl, h2⟩

theorem truthyTimestamps_ne_nil (qs : List PQuery) (hq : qs ≠ [])
    (hnorm : ∀ q ∈ qs, normalizedQ q = true) : truthyTimestamps qs ≠ [] := by
  cases qs with
  | nil => exact absurd rfl hq
  | cons q rest =>
    rcases normalizedQ_timestamp q (hnorm q (List.mem_cons_self q rest)) with ⟨t, hts, ht0⟩
    have : t ∈ truthyTimestamps (q :: rest) :=
      (mem_truthyTimestamps _ _).mpr ⟨q, List.mem_cons_self q rest, hts, ht0⟩
    intro hnil
    rw [hnil] at this
    cases this

theorem new_ts_gt_last (last : Rat) (raw : List PQuery) (t : Rat)
    (ht : t ∈ truthyTimestamps (raw.filter (isNewQuery last))) : last < t := by
  rcases (mem_truthyTimestamps _ _).mp ht with ⟨q, hq, hts, ht0⟩
  have hfil := (List.mem_filter.mp hq).2
  rcases (isNewQuery_iff last q).mp hfil with ⟨u, hu, _, hlt⟩
  rw [hts] at hu
  have heq : t = u := Option.some.inj hu
  subst heq
  exact hlt

theorem latest_gt_last (last : Rat) (raw : List PQuery) (m : Rat)
    (hm : pyMax (truthyTimestamps (raw.filter (isNewQuery last))) = some m) :
    last < m :=
  new_ts_gt_last last raw m (pyMax_spec _ _ hm).1

theorem raw_ts_le_latest (last : Rat) (raw : List PQuery) (m : Rat)
    (hm : pyMax (truthyTimestamps (raw.filter (isNewQuery last))) = some m)
    (t : Rat) (ht : t ∈ truthyTimestamps raw) : t ≤ m := by
  rcases (mem_truthyTimestamps _ _).mp ht with ⟨q, hq, hts, ht0⟩
  by_cases hnew : isNewQuery last q = true
  · have hmem : t ∈ truthyTimestamps (raw.filter (isNewQuery last)) :=
      (mem_truthyTimestamps _ _).mpr ⟨q, List.mem_filter.mpr ⟨hq, hnew⟩, hts, ht0⟩
    exact (pyMax_spec _ _ hm).2 t hmem
  · have hle : ¬ last < t := by
      intro hcon
      exact hnew ((isNewQuery_iff last q).mpr ⟨t, hts, ht0, hcon⟩)
    exact le_trans (le_of_not_lt hle) (le_of_lt (latest_gt_last last raw m hm))

theorem pyMax_raw_eq_latest (last : Rat) (raw : List PQuery) (m : Rat)
    (hm : pyMax (truthyTimestamps (raw.filter (isNewQuery last))) = some m) :
    pyMax (truthyTimestamps raw) = some m := by
  have hmemnew := (pyMax_spec _ _ hm).1
  rcases (mem_truthyTimestamps _ _).mp hmemnew with ⟨q, hq, hts, ht0⟩
  have hq2 : q ∈ raw := (List.mem_filter.mp hq).1
  have hmemraw : m ∈ truthyTimestamps raw :=
    (mem_truthyTimestamps _ _).mpr ⟨q, hq2, hts, ht0⟩
  have hne : truthyTimestamps raw ≠ [] := by
    intro hnil
    rw [hnil] at hmemraw
    cases hmemraw
  obtain ⟨M, hM⟩ := pyMax_isSome _ hne
  have h1 : M ≤ m := raw_ts_le_latest last raw m hm M (pyMax_spec _ _ hM).1
  have h2 : m ≤ M := (pyMax_spec _ _ hM).2 m hmemraw
  rw [hM, le_antisymm h1 h2]

/-! ## Component lemmas for the cycle tail -/

theorem finishWatermark_write (inp : CycleInput) (raw : List PQuery) (m : Rat)
    (acc : LoopAcc) (dg : Option (String × String)) (em : Option Bool)
    (hgt : inp.lastCheck < m)
    (hrawmax : pyMax (truthyTimestamps raw) = some m) :
    (finishWatermark inp raw m acc dg em).watermarkWrite = some m ∧
    (finishWatermark inp raw m acc dg em).exitPath = .completed := by
  rw [finishWatermark]
  by_cases h : 0 < m
  · rw [if_pos h]
    exact ⟨rfl, rfl⟩
  · rw [if_neg h]
    simp only [hrawmax]
    simp [max_eq_right (le_of_lt hgt)]

theorem finishWatermark_acc (inp : CycleInput) (raw : List PQuery) (latest : Rat)
    (acc : LoopAcc) (dg : Option (String × String)) (em : Option Bool) :
    (finishWatermark inp raw latest acc dg em).attempted = acc.attempted ∧
    (finishWatermark inp raw latest acc dg em).stored = acc.stored ∧
    (finishWatermark inp raw latest acc dg em).notify = acc.notify ∧
    (finishWatermark inp raw latest acc dg em).processed = acc.processed := by
  rw [finishWatermark]
  by_cases h : 0 < latest
  · rw [if_pos h]
    exact ⟨rfl, rfl, rfl, rfl⟩
  · rw [if_neg h]
    cases pyMax (truthyTimestamps raw) with
    | none => exact ⟨rfl, rfl, rfl, rfl⟩
    | some M => exact ⟨rfl, rfl, rfl, rfl⟩

theorem finishCycle_acc (inp : CycleInput) (raw : List PQuery) (latest : Rat)
    (acc : LoopAcc) :
    (finishCycle inp raw latest acc).attempted = acc.attempted ∧
    (finishCycle inp raw latest acc).stored = acc.stored ∧
    (finishCycle inp raw latest acc).notify = acc.notify ∧
    (finishCycle inp raw latest acc).processed = acc.processed := by
  rw [finishCycle]
  by_cases hn : acc.notify.isEmpty
  · simp only [hn, Bool.not_true, Bool.false_eq_true, if_false]
    exact finishWatermark_acc inp raw latest acc none none
  · have hn2 : acc.notify.isEmpty = false := by
      cases hx : acc.notify.isEmpty
      · rfl
      · exact absurd hx hn
    simp only [hn2, Bool.not_false, if_true]
    cases renderDigest inp.fmtTime acc.notify with
    | none => exact ⟨rfl, rfl, rfl, rfl⟩
    | some sb => exact finishWatermark_acc inp raw latest acc (some sb) (some inp.emailOk)

theorem finishCycle_write (inp : CycleInput) (raw : List PQuery) (m : Rat)
    (acc : LoopAcc)
    (hgt : inp.lastCheck < m)
    (hrawmax : pyMax (truthyTimestamps raw) = some m)
    (hnocrash : (finishCycle inp raw m acc).exitPath ≠ .crashed) :
    (finishCycle inp raw m acc).watermarkWrite = some m ∧
    (finishCycle inp raw m acc).exitPath = .completed := by
  rw [finishCycle] at hnocrash ⊢
  by_cases hn : acc.notify.isEmpty
  · simp only [hn, Bool.not_true, Bool.false_eq_true, if_false] at hnocrash ⊢
    exact finishWatermark_write inp raw m acc none none hgt hrawmax
  · have hn2 : acc.notify.isEmpty = false := by
      cases hx : acc.notify.isEmpty
      · rfl
      · exact absurd hx hn
    simp only [hn2, Bool.not_false, if_true] at hnocrash ⊢
    cases hrd : renderDigest inp.fmtTime acc.notify with
    | none =>
      rw [hrd] at hnocrash
      exact absurd rfl hnocrash
    | some sb =>
      exact finishWatermark_write inp raw m acc (some sb) (some inp.emailOk) hgt hrawmax

theorem truthyTimestamps_filter_new_ne_nil (last : Rat) (raw : List PQuery)
    (hnew : raw.filter (isNewQuery last) ≠ []) :
    truthyTimestamps (raw.filter (isNewQuery last)) ≠ [] := by
  cases hx : raw.filter (isNewQuery last) with
  | nil => exact absurd hx hnew
  | cons q rest =>
    have hq : q ∈ raw.filter (isNewQuery last) := by
      rw [hx]
      exact List.mem_cons_self q rest
    have hnewq := (List.mem_filter.mp hq).2
    rcases (isNewQuery_iff last q).mp hnewq with ⟨t, hts, ht0, _⟩
    have hmem : t ∈ truthyTimestamps (raw.filter (isNewQuery last)) :=
      (mem_truthyTimestamps _ _).mpr ⟨q, hq, hts, ht0⟩
    rw [hx] at hmem
    intro hnil
    rw [hnil] at hmem
    cases hmem

theorem run_eq_core (inp : CycleInput) (sid : String) (raw : List PQuery)
    (hauth : inp.auth = some sid) (hfetch : inp.fetch = some raw) :
    run_analysis_cycle inp = cycleCore inp raw := by
  simp only [run_analysis_cycle, hauth, hfetch]

theorem cycleCore_empty (inp : CycleInput) : cycleCore inp [] = noEffects .emptyFetch := rfl

theorem cycleCore_no_new (inp : CycleInput) (raw : List PQuery)
    (hraw : raw ≠ [])
    (hnonew : raw.filter (isNewQuery inp.lastCheck) = []) :
    cycleCore inp raw =
      (match pyMax (truthyTimestamps raw) with
        | none => noEffects .crashed
        | some m =>
          ⟨some (max inp.lastCheck m), [], [], [], [], none, none, .noNewWork⟩) := by
  have hre : raw.isEmpty = false := by
    cases raw
    · exact absurd rfl hraw
    · rfl
  rw [cycleCore]
  simp only [hre, Bool.false_eq_true, if_false, hnonew, List.isEmpty_nil, if_true]

theorem cycleCore_of_new (inp : CycleInput) (raw : List PQuery) (m : Rat)
    (hnew : raw.filter (isNewQuery inp.lastCheck) ≠ [])
    (hm : pyMax (truthyTimestamps (raw.filter (isNewQuery inp.lastCheck))) = some m) :
    cycleCore inp raw =
      (match resultsStage inp (buildDomainMap (raw.filter (isNewQuery inp.lastCheck)))
          (classifierStage inp (raw.filter (isNewQuery inp.lastCheck))
            ((buildDomainMap (raw.filter (isNewQuery inp.lastCheck))).map (fun e => e.1))) with
        | none => noEffects .crashed
        | some (acc, crashed) =>
          if crashed then
            ⟨none, acc.attempted, acc.stored, acc.notify, acc.processed, none, none, .crashed⟩
          else finishCycle inp raw m acc) := by
  have hre : raw.isEmpty = false := by
    cases raw
    · simp at hnew
    · rfl
  have hne : (raw.filter (isNewQuery inp.lastCheck)).isEmpty = false := by
    cases hx : raw.filter (isNewQuery inp.lastCheck) with
    | nil => exact absurd hx hnew
    | cons a l => rfl
  rw [cycleCore]
  simp only [hre, Bool.false_eq_true, if_false, hne, hm]

theorem finishWatermark_write_ge (inp : CycleInput) (raw : List PQuery) (latest : Rat)
    (acc : LoopAcc) (dg : Option (String × String)) (em : Option Bool) (v : Rat)
    (hlat : inp.lastCheck < latest)
    (hw : (finishWatermark inp raw latest acc dg em).watermarkWrite = some v) :
    inp.lastCheck ≤ v := by
  rw [finishWatermark] at hw
  by_cases h : 0 < latest
  · rw [if_pos h] at hw
    have hv : latest = v := by
      simpa using hw
    rw [← hv]
    exact le_of_lt hlat
  · rw [if_neg h] at hw
    cases hM : pyMax (truthyTimestamps raw) with
    | none =>
      rw [hM] at hw
      cases hw
    | some M =>
      rw [hM] at hw
      have hv : max inp.lastCheck M = v := by
        simpa using hw
      rw [← hv]
      exact le_max_left _ _

theorem finishCycle_write_ge (inp : CycleInput) (raw : List PQuery) (latest : Rat)
    (acc : LoopAcc) (v : Rat)
    (hlat : inp.lastCheck < latest)
    (hw : (finishCycle inp raw latest acc).watermarkWrite = some v) :
    inp.lastCheck ≤ v := by
  rw [finishCycle] at hw
  by_cases hn : acc.notify.isEmpty
  · simp only [hn, Bool.not_true, Bool.false_eq_true, if_false] at hw
    exact finishWatermark_write_ge inp raw latest acc none none v hlat hw
  · have hn2 : acc.notify.isEmpty = false := by
      cases hx : acc.notify.isEmpty
      · rfl
      · exact absurd hx hn
    simp only [hn2, Bool.not_false, if_true] at hw
    cases hrd : renderDigest inp.fmtTime acc.notify with
    | none =>
      rw [hrd] at hw
      cases hw
    | some sb =>
      rw [hrd] at hw
      exact finishWatermark_write_ge inp raw latest acc (some sb) (some inp.emailOk) v hlat hw

theorem cycle_write_ge_last (inp : CycleInput) (v : Rat)
    (hw : (run_analysis_cycle inp).watermarkWrite = some v) : inp.lastCheck ≤ v := by
  cases hauth : inp.auth with
  | none =>
    rw [run_analysis_cycle, hauth] at hw
    cases hw
  | some sid =>
    cases hfetch : inp.fetch with
    | none =>
      rw [run_analysis_cycle, hauth, hfetch] at hw
      cases hw
    | some raw =>
      rw [run_eq_core inp sid raw hauth hfetch] at hw
      by_cases hraw : raw = []
      · subst hraw
        rw [cycleCore_empty] at hw
        cases hw
      · by_cases hnonew : raw.filter (isNewQuery inp.lastCheck) = []
        · rw [cycleCore_no_new inp raw hraw hnonew] at hw
          cases hM : pyMax (truthyTimestamps raw) with
          | none =>
            rw [hM] at hw
            cases hw
          | some M =>
            rw [hM] at hw
            have hv : max inp.lastCheck M = v := by
              simpa using hw
            rw [← hv]
            exact le_max_left _ _
        · obtain ⟨m, hm⟩ := pyMax_isSome _ (truthyTimestamps_filter_new_ne_nil inp.lastCheck raw hnonew)
          have hlat : inp.lastCheck < m := latest_gt_last inp.lastCheck raw m hm
          rw [cycleCore_of_new inp raw m hnonew hm] at hw
          cases hres : resultsStage inp (buildDomainMap (raw.filter (isNewQuery inp.lastCheck)))
              (classifierStage inp (raw.filter (isNewQuery inp.lastCheck))
                ((buildDomainMap (raw.filter (isNewQuery inp.lastCheck))).map (fun e => e.1))) with
          | none =>
            rw [hres] at hw
            cases hw
          | some accFlag =>
            rw [hres] at hw
            obtain ⟨acc, crashed⟩ := accFlag
            cases crashed with
            | true => cases hw
            | false => exact finishCycle_write_ge inp raw m acc v hlat hw

theorem cycle_write_of_new (inp : CycleInput) (sid : String) (raw : List PQuery) (m : Rat)
    (hauth : inp.auth = some sid) (hfetch : inp.fetch = some raw)
    (hnew : raw.filter (isNewQuery inp.lastCheck) ≠ [])
    (hm : pyMax (truthyTimestamps (raw.filter (isNewQuery inp.lastCheck))) = some m)
    (hnocrash : (run_analysis_cycle inp).exitPath ≠ .crashed) :
    (run_analysis_cycle inp).watermarkWrite = some m ∧
    (run_analysis_cycle inp).exitPath = .completed := by
  rw [run_eq_core inp sid raw hauth hfetch] at hnocrash ⊢
  rw [cycleCore_of_new inp raw m hnew hm] at hnocrash ⊢
  cases hres : resultsStage inp (buildDomainMap (raw.filter (isNewQuery inp.lastCheck)))
      (classifierStage inp (raw.filter (isNewQuery inp.lastCheck))
        ((buildDomainMap (raw.filter (isNewQuery inp.lastCheck))).map (fun e => e.1))) with
  | none =>
    rw [hres] at hnocrash
    exact absurd rfl hnocrash
  | some accFlag =>
    rw [hres] at hnocrash
    obtain ⟨acc, crashed⟩ := accFlag
    cases crashed with
    | true => exact absurd rfl hnocrash
    | false =>
      exact finishCycle_write inp raw m acc (latest_gt_last inp.lastCheck raw m hm)
        (pyMax_raw_eq_latest inp.lastCheck raw m hm) hnocrash

theorem cycle_write_no_new (inp : CycleInput) (sid : String) (raw : List PQuery)
    (hauth : inp.auth = some sid) (hfetch : inp.fetch = some raw)
    (hraw : raw ≠ [])
    (hnorm : ∀ q ∈ raw, normalizedQ q = true)
    (hnonew : raw.filter (isNewQuery inp.lastCheck) = []) :
    ∃ M, pyMax (truthyTimestamps raw) = some M ∧
      (run_analysis_cycle inp).watermarkWrite = some (max inp.lastCheck M) ∧
      (run_analysis_cycle inp).exitPath = .noNewWork := by
  obtain ⟨M, hM⟩ := pyMax_isSome _ (truthyTimestamps_ne_nil raw hraw hnorm)
  refine ⟨M, hM, ?_⟩
  rw [run_eq_core inp sid raw hauth hfetch, cycleCore_no_new inp raw hraw hnonew, hM]
  exact ⟨rfl, rfl⟩

/-! ## Claim C1 -/

/-- Claim C1 (amended): across one cycle the stored watermark never
regresses.  With authentication and fetch succeeded and a normalized
batch, and provided the cycle does not crash on a malformed classifier
reply item: an empty fetch leaves the watermark file unwritten; a batch
with no query newer than the loaded watermark writes
max(loaded, max timestamp over the whole fetched batch); a batch with
at least one new query writes the maximum timestamp over the new
queries, which is strictly above the loaded watermark.  Unconditionally
(crash or not, for every world), any written value is at least the
loaded watermark.  (The unamended claim fails only because a malformed
reply item aborts the cycle before the watermark write; see the
counterexample.) -/
theorem C1_watermark_monotone (inp : CycleInput) (sid : String) (raw : List PQuery)
    (hauth : inp.auth = some sid) (hfetch : inp.fetch = some raw)
    (hnorm : ∀ q ∈ raw, normalizedQ q = true)
    (hnocrash : (run_analysis_cycle inp).exitPath ≠ ExitPath.crashed) :
    (raw = [] → (run_analysis_cycle inp).watermarkWrite = none) ∧
    (raw ≠ [] → (∀ q ∈ raw, ∀ t : Rat, q.timestamp = some t → t ≤ inp.lastCheck) →
      ∃ M, pyMax (truthyTimestamps raw) = some M ∧
        (run_analysis_cycle inp).watermarkWrite = some (max inp.lastCheck M)) ∧
    ((∃ q ∈ raw, ∃ t : Rat, q.timestamp = some t ∧ inp.lastCheck < t) →
      ∃ m, pyMax (truthyTimestamps (raw.filter (isNewQuery inp.lastCheck))) = some m ∧
        (run_analysis_cycle inp).watermarkWrite = some m ∧ inp.lastCheck < m) ∧
    (∀ inp2 : CycleInput, ∀ v : Rat,
      (run_analysis_cycle inp2).watermarkWrite = some v → inp2.lastCheck ≤ v) := by
  refine ⟨?_, ?_, ?_, fun inp2 v hw => cycle_write_ge_last inp2 v hw⟩
  · intro hempty
    subst hempty
    rw [run_eq_core inp sid [] hauth hfetch, cycleCore_empty]
    rfl
  · intro hraw hold
    have hnonew : raw.filter (isNewQuery inp.lastCheck) = [] := by
      rw [List.filter_eq_nil_iff]
      intro q hq
      intro hcon
      rcases (isNewQuery_iff inp.lastCheck q).mp hcon with ⟨t, hts, _, hlt⟩
      exact absurd (hold q hq t hts) (not_le_of_lt hlt)
    rcases cycle_write_no_new inp sid raw hauth hfetch hraw hnorm hnonew with ⟨M, hM, hw, _⟩
    exact ⟨M, hM, hw⟩
  · rintro ⟨q, hq, t, hts, hlt⟩
    have hnew : raw.filter (isNewQuery inp.lastCheck) ≠ [] := by
      have ht0 : t ≠ 0 := by
        rcases normalizedQ_timestamp q (hnorm q hq) with ⟨u, hu, hu0⟩
        rw [hts] at hu
        rwa [← Option.some.inj hu] at hu0
      have hnewq : isNewQuery inp.lastCheck q = true :=
        (isNewQuery_iff inp.lastCheck q).mpr ⟨t, hts, ht0, hlt⟩
      intro hnil
      have : q ∈ raw.filter (isNewQuery inp.lastCheck) :=
        List.mem_filter.mpr ⟨hq, hnewq⟩
      rw [hnil] at this
      cases this
    obtain ⟨m, hm⟩ := pyMax_isSome _ (truthyTimestamps_filter_new_ne_nil inp.lastCheck raw hnew)
    rcases cycle_write_of_new inp sid raw m hauth hfetch hnew hm hnocrash with ⟨hw, _⟩
    exact ⟨m, hm, hw, latest_gt_last inp.lastCheck raw m hm⟩

/-- Claim C1 witness: in a healthy world with three fetched queries
(two newer than the watermark 60) and an unavailable classifier, the
cycle still writes watermark 120 = max timestamp over the new
queries. -/
theorem C1_watermark_monotone_witness :
    (run_analysis_cycle worldNoModel).watermarkWrite = some 120 := by
  rcases (C1_watermark_monotone worldNoModel "sid" [qNewA, qNewA2, qOldB] rfl rfl
      (by decide) (by decide)).2.2.1 ⟨qNewA2, by decide, 120, by decide, by decide⟩ with
    ⟨m, hm, hw, _⟩
  have h120 : pyMax (truthyTimestamps
      (([qNewA, qNewA2, qOldB]).filter (isNewQuery worldNoModel.lastCheck))) = some 120 := by
    decide
  rw [h120] at hm
  rw [hw, Option.some.inj hm]

/-- Claim C1 counterexample: a cycle with new queries whose classifier
reply is the valid JSON list [1] crashes at the ai_findings_map
comprehension (item.get on an int) before the watermark write, so the
watermark is not advanced to the newest new-query timestamp, refuting
the unamended claim. -/
theorem C1_counterexample :
    worldCrash.auth.isSome = true ∧
    worldCrash.fetch = some [qNewA, qNewA2, qOldB] ∧
    (∀ q ∈ [qNewA, qNewA2, qOldB], normalizedQ q = true) ∧
    qNewA2.timestamp = some 120 ∧ worldCrash.lastCheck < 120 ∧
    (run_analysis_cycle worldCrash).watermarkWrite = none ∧
    (run_analysis_cycle worldCrash).exitPath = ExitPath.crashed := by
  decide

/-! ## Lemmas about the domain map -/

theorem addQueryCtx_keys (m : List (String × List Ctx)) (d : String) (c : Ctx) :
    (addQueryCtx m d c).map (fun e => e.1) =
      if d ∈ m.map (fun e => e.1) then m.map (fun e => e.1)
      else m.map (fun e => e.1) ++ [d] := by
  induction m with
  | nil => simp [addQueryCtx]
  | cons e rest ih =>
    obtain ⟨k, cs⟩ := e
    by_cases hk : k = d
    · subst hk
      simp [addQueryCtx]
    · have hbeq : (k == d) = false := by
        simpa using hk
      rw [addQueryCtx, hbeq]
      simp only [Bool.false_eq_true, if_false, List.map_cons, ih]
      by_cases hmem : d ∈ rest.map (fun e => e.1)
      · simp [hmem, List.mem_cons, Ne.symm hk]
      · simp [hmem, List.mem_cons, Ne.symm hk]

theorem addQueryCtx_sum (m : List (String × List Ctx)) (d : String) (c : Ctx) :
    ((addQueryCtx m d c).map (fun e => e.2.length)).sum =
      (m.map (fun e => e.2.length)).sum + 1 := by
  induction m with
  | nil => simp [addQueryCtx]
  | cons e rest ih =>
    obtain ⟨k, cs⟩ := e
    by_cases hk : (k == d) = true
    · rw [addQueryCtx, hk]
      simp only [if_true, List.map_cons, List.sum_cons, List.length_append]
      simp
      omega
    · have hbeq : (k == d) = false := by
        cases hx : (k == d)
        · rfl
        · exact absurd hx hk
      rw [addQueryCtx, hbeq]
      simp only [Bool.false_eq_true, if_false, List.map_cons, List.sum_cons, ih]
      omega

theorem addQueryCtx_vals_ne_nil (m : List (String × List Ctx)) (d : String) (c : Ctx)
    (h : ∀ e ∈ m, e.2 ≠ []) : ∀ e ∈ addQueryCtx m d c, e.2 ≠ [] := by
  induction m with
  | nil =>
    intro e he
    rw [addQueryCtx] at he
    rcases List.mem_singleton.mp he with rfl
    simp
  | cons e0 rest ih =>
    obtain ⟨k, cs⟩ := e0
    intro e he
    by_cases hk : (k == d) = true
    · rw [addQueryCtx, hk] at he
      simp only [if_true] at he
      rcases List.mem_cons.mp he with rfl | hrest
      · simp
      · exact h e (List.mem_cons_of_mem _ hrest)
    · have hbeq : (k == d) = false := by
        cases hx : (k == d)
        · rfl
        · exact absurd hx hk
      rw [addQueryCtx, hbeq] at he
      simp only [Bool.false_eq_true, if_false] at he
      rcases List.mem_cons.mp he with rfl | hrest
      · exact h (k, cs) (List.mem_cons_self _ _)
      · exact ih (fun x hx => h x (List.mem_cons_of_mem _ hx)) e hrest

theorem lookupCtxs_addQueryCtx (m : List (String × List Ctx)) (dd d : String) (c : Ctx) :
    lookupCtxs (addQueryCtx m dd c) d =
      if dd == d then
        (match lookupCtxs m d with
          | some cs => some (cs ++ [c])
          | none => some [c])
      else lookupCtxs m d := by
  induction m with
  | nil =>
    by_cases h : (dd == d) = true
    · have hdd : dd = d := by
        simpa using h
      subst hdd
      simp [addQueryCtx, lookupCtxs]
    · have hbeq : (dd == d) = false := by
        cases hx : (dd == d)
        · rfl
        · exact absurd hx h
      simp [addQueryCtx, lookupCtxs, hbeq]
  | cons e rest ih =>
    obtain ⟨k, cs⟩ := e
    by_cases hk : (k == dd) = true
    · have hkd : k = dd := by
        simpa using hk
      subst hkd
      rw [addQueryCtx, hk]
      simp only [if_true]
      by_cases hd : (k == d) = true
      · rw [lookupCtxs, hd, lookupCtxs, hd]
        simp
      · have hbd : (k == d) = false := by
          cases hx : (k == d)
          · rfl
          · exact absurd hx hd
        rw [lookupCtxs, hbd, lookupCtxs, hbd]
        simp [hbd]
    · have hbeq : (k == dd) = false := by
        cases hx : (k == dd)
        · rfl
        · exact absurd hx hk
      rw [addQueryCtx, hbeq]
      simp only [Bool.false_eq_true, if_false]
      by_cases hd : (k == d) = true
      · have hkd : k = d := by
          simpa using hd
      -- k = d and k ≠ dd, so dd ≠ d and both lookups hit the head
        have hdd : (dd == d) = false := by
          subst hkd
          cases hx : (dd == k)
          · rfl
          · have : dd = k := by
              simpa using hx
            subst this
            simp at hbeq
        rw [lookupCtxs, hd, hdd]
        simp only [Bool.false_eq_true, if_false]
        rw [lookupCtxs, hd]
        simp
      · have hbd : (k == d) = false := by
          cases hx : (k == d)
          · rfl
          · exact absurd hx hd
        rw [lookupCtxs, hbd]
        simp only [Bool.false_eq_true, if_false]
        rw [ih]
        by_cases hdd : (dd == d) = true
        · rw [hdd]
          simp only [if_true]
          rw [lookupCtxs, hbd]
          simp
        · have hbdd : (dd == d) = false := by
            cases hx : (dd == d)
            · rfl
            · exact absurd hx hdd
          rw [hbdd]
          simp only [Bool.false_eq_true, if_false]
          rw [lookupCtxs, hbd]
          simp

theorem dedupAux_congr (xs : List String) (s1 s2 : List String)
    (h : ∀ a, s1.contains a = s2.contains a) : dedupAux xs s1 = dedupAux xs s2 := by
  induction xs generalizing s1 s2 with
  | nil => rfl
  | cons x xs ih =>
    rw [dedupAux, dedupAux, h x]
    by_cases hc : (s2.contains x) = true
    · rw [hc]
      simp only [if_true]
      exact ih s1 s2 h
    · have hb : (s2.contains x) = false := by
        cases hx : s2.contains x
        · rfl
        · exact absurd hx hc
      rw [hb]
      simp only [Bool.false_eq_true, if_false]
      rw [ih (x :: s1) (x :: s2) (fun a => by
        have h2 := h a
        simp at h2 ⊢
        simp [h2])]

theorem dedupAux_subset (xs seen : List String) (a : String)
    (ha : a ∈ dedupAux xs seen) : a ∈ xs := by
  induction xs generalizing seen with
  | nil => cases ha
  | cons x xs ih =>
    rw [dedupAux] at ha
    by_cases hc : (seen.contains x) = true
    · rw [hc] at ha
      simp only [if_true] at ha
      exact List.mem_cons_of_mem _ (ih seen ha)
    · have hb : (seen.contains x) = false := by
        cases hx : seen.contains x
        · rfl
        · exact absurd hx hc
      rw [hb] at ha
      simp only [Bool.false_eq_true, if_false] at ha
      rcases List.mem_cons.mp ha with rfl | h2
      · exact List.mem_cons_self _ _
      · exact List.mem_cons_of_mem _ (ih (x :: seen) h2)

theorem dedupAux_not_seen (xs seen : List String) (a : String)
    (ha : a ∈ dedupAux xs seen) : seen.contains a = false := by
  induction xs generalizing seen with
  | nil => cases ha
  | cons x xs ih =>
    rw [dedupAux] at ha
    by_cases hc : (seen.contains x) = true
    · rw [hc] at ha
      simp only [if_true] at ha
      exact ih seen ha
    · have hb : (seen.contains x) = false := by
        cases hx : seen.contains x
        · rfl
        · exact absurd hx hc
      rw [hb] at ha
      simp only [Bool.false_eq_true, if_false] at ha
      rcases List.mem_cons.mp ha with rfl | h2
      · exact hb
      · have h3 := ih (x :: seen) h2
        simp at h3
        simp [h3.2]

theorem dedupAux_nodup (xs seen : List String) : (dedupAux xs seen).Nodup := by
  induction xs generalizing seen with
  | nil => exact List.nodup_nil
  | cons x xs ih =>
    rw [dedupAux]
    by_cases hc : (seen.contains x) = true
    · rw [hc]
      simp only [if_true]
      exact ih seen
    · have hb : (seen.contains x) = false := by
        cases hx : seen.contains x
        · rfl
        · exact absurd hx hc
      rw [hb]
      simp only [Bool.false_eq_true, if_false]
      refine List.nodup_cons.mpr ⟨?_, ih (x :: seen)⟩
      intro hmem
      have := dedupAux_not_seen xs (x :: seen) x hmem
      simp at this

theorem truthyDomains_cons_none (q : PQuery) (qs : List PQuery) (hd : q.domain = none) :
    truthyDomains (q :: qs) = truthyDomains qs := by
  rw [truthyDomains, List.filterMap_cons, hd]
  rfl

theorem truthyDomains_cons_empty (q : PQuery) (qs : List PQuery) (hd : q.domain = some "") :
    truthyDomains (q :: qs) = truthyDomains qs := by
  rw [truthyDomains, List.filterMap_cons, hd]
  rfl

theorem truthyDomains_cons_some (q : PQuery) (qs : List PQuery) (d : String)
    (hd : q.domain = some d) (hne : d ≠ "") :
    truthyDomains (q :: qs) = d :: truthyDomains qs := by
  rw [truthyDomains, List.filterMap_cons, hd]
  have hb : (d != "") = true := by
    simpa using hne
  simp only [hb, if_true]
  rfl

theorem domStep_none (m : List (String × List Ctx)) (q : PQuery) (hd : q.domain = none) :
    domStep m q = m := by
  rw [domStep, hd]

theorem domStep_empty (m : List (String × List Ctx)) (q : PQuery) (hd : q.domain = some "") :
    domStep m q = m := by
  rw [domStep, hd]
  simp

theorem domStep_some (m : List (String × List Ctx)) (q : PQuery) (d : String)
    (hd : q.domain = some d) (hne : d ≠ "") :
    domStep m q = addQueryCtx m d ⟨q.timestamp, q.client_ip⟩ := by
  rw [domStep, hd]
  have hb : (d != "") = true := by
    simpa using hne
  simp only [hb, if_true]

theorem foldl_domStep_keys (qs : List PQuery) (m : List (String × List Ctx)) :
    (qs.foldl domStep m).map (fun e => e.1) =
      m.map (fun e => e.1) ++ dedupAux (truthyDomains qs) (m.map (fun e => e.1)) := by
  induction qs generalizing m with
  | nil => simp [truthyDomains, dedupAux]
  | cons q qs ih =>
    rw [List.foldl_cons]
    cases hd : q.domain with
    | none => rw [domStep_none m q hd, truthyDomains_cons_none q qs hd, ih]
    | some d =>
      by_cases hde : d = ""
      · subst hde
        rw [domStep_empty m q hd, truthyDomains_cons_empty q qs hd, ih]
      · rw [domStep_some m q d hd hde, truthyDomains_cons_some q qs d hd hde, ih,
          addQueryCtx_keys]
        by_cases hmem : d ∈ m.map (fun e => e.1)
        · rw [if_pos hmem, dedupAux]
          have hc : ((m.map (fun e => e.1)).contains d) = true := by
            simpa using hmem
          rw [hc]
          simp only [if_true]
        · rw [if_neg hmem, dedupAux]
          have hc : ((m.map (fun e => e.1)).contains d) = false := by
            simpa using hmem
          rw [hc]
          simp only [Bool.false_eq_true, if_false]
          have hcongr : dedupAux (truthyDomains qs) (m.map (fun e => e.1) ++ [d])
              = dedupAux (truthyDomains qs) (d :: m.map (fun e => e.1)) := by
            refine dedupAux_congr _ _ _ (fun a => ?_)
            simp only [List.contains_eq_any_beq, List.any_append, List.any_cons]
            simp [Bool.or_comm]
          rw [hcongr, List.append_assoc]
          rfl

theorem foldl_domStep_sum (qs : List PQuery) (m : List (String × List Ctx)) :
    ((qs.foldl domStep m).map (fun e => e.2.length)).sum =
      (m.map (fun e => e.2.length)).sum + (truthyDomains qs).length := by
  induction qs generalizing m with
  | nil => simp [truthyDomains]
  | cons q qs ih =>
    rw [List.foldl_cons]
    cases hd : q.domain with
    | none =>
      rw [domStep_none m q hd, truthyDomains_cons_none q qs hd, ih]
    | some d =>
      by_cases hde : d = ""
      · subst hde
        rw [domStep_empty m q hd, truthyDomains_cons_empty q qs hd, ih]
      · rw [domStep_some m q d hd hde, truthyDomains_cons_some q qs d hd hde, ih,
          addQueryCtx_sum]
        simp only [List.length_cons]
        omega

theorem foldl_domStep_vals_ne_nil (qs : List PQuery) (m : List (String × List Ctx))
    (h : ∀ e ∈ m, e.2 ≠ []) : ∀ e ∈ qs.foldl domStep m, e.2 ≠ [] := by
  induction qs generalizing m with
  | nil => exact h
  | cons q qs ih =>
    rw [List.foldl_cons]
    cases hd : q.domain with
    | none =>
      rw [domStep_none m q hd]
      exact ih m h
    | some d =>
      by_cases hde : d = ""
      · subst hde
        rw [domStep_empty m q hd]
        exact ih m h
      · rw [domStep_some m q d hd hde]
        exact ih _ (addQueryCtx_vals_ne_nil m d _ h)

theorem lookupCtxs_foldl (qs : List PQuery) (m : List (String × List Ctx)) (d : String)
    (hdne : d ≠ "") :
    lookupCtxs (qs.foldl domStep m) d =
      (match lookupCtxs m d with
        | some cs => some (cs ++ ctxsOf d qs)
        | none => if (ctxsOf d qs).isEmpty then none else some (ctxsOf d qs)) := by
  induction qs generalizing m with
  | nil =>
    rw [List.foldl_nil]
    cases lookupCtxs m d with
    | none => simp [ctxsOf]
    | some cs => simp [ctxsOf]
  | cons q qs ih =>
    rw [List.foldl_cons]
    have hctxs : ∀ hq : (q.domain == some d) = false,
        ctxsOf d (q :: qs) = ctxsOf d qs := by
      intro hq
      rw [ctxsOf, List.filter_cons, hq]
      simp only [Bool.false_eq_true, if_false]
      rfl
    cases hd : q.domain with
    | none =>
      rw [domStep_none m q hd, ih]
      rw [hctxs (by rw [hd]; rfl)]
    | some dd =>
      by_cases hde : dd = ""
      · subst hde
        rw [domStep_empty m q hd, ih]
        rw [hctxs (by rw [hd]; simpa using (Ne.symm hdne))]
      · rw [domStep_some m q dd hd hde, ih]
        by_cases heq : dd = d
        · subst heq
          have hctxcons : ctxsOf dd (q :: qs) = ⟨q.timestamp, q.client_ip⟩ :: ctxsOf dd qs := by
            rw [ctxsOf, List.filter_cons]
            have : (q.domain == some dd) = true := by
              rw [hd]
              simp
            rw [this]
            simp only [if_true, List.map_cons]
            rfl
          rw [hctxcons, lookupCtxs_addQueryCtx]
          have : (dd == dd) = true := by simp
          rw [this]
          simp only [if_true]
          cases lookupCtxs m dd with
          | none => simp
          | some cs => simp
        · have hbne : (dd == d) = false := by
            simpa using heq
          rw [lookupCtxs_addQueryCtx, hbne]
          simp only [Bool.false_eq_true, if_false]
          rw [hctxs (by rw [hd]; simpa using heq)]

theorem buildDomainMap_keys (qs : List PQuery) :
    (buildDomainMap qs).map (fun e => e.1) = dedupFirst (truthyDomains qs) := by
  rw [buildDomainMap, foldl_domStep_keys, dedupFirst]
  rfl

theorem buildDomainMap_keys_nodup (qs : List PQuery) :
    ((buildDomainMap qs).map (fun e => e.1)).Nodup := by
  rw [buildDomainMap_keys, dedupFirst]
  exact dedupAux_nodup _ _

theorem buildDomainMap_sum (qs : List PQuery) :
    ((buildDomainMap qs).map (fun e => e.2.length)).sum = (truthyDomains qs).length := by
  rw [buildDomainMap, foldl_domStep_sum]
  simp

theorem buildDomainMap_vals_ne_nil (qs : List PQuery) :
    ∀ e ∈ buildDomainMap qs, e.2 ≠ [] := by
  rw [buildDomainMap]
  exact foldl_domStep_vals_ne_nil qs [] (by intro e he; cases he)

theorem buildDomainMap_key_origin (qs : List PQuery) (d : String)
    (hd : d ∈ (buildDomainMap qs).map (fun e => e.1)) :
    ∃ q ∈ qs, q.domain = some d ∧ d ≠ "" := by
  rw [buildDomainMap_keys, dedupFirst] at hd
  have hmem := dedupAux_subset _ _ _ hd
  rcases List.mem_filterMap.mp hmem with ⟨q, hq, hf⟩
  cases hdom : q.domain with
  | none =>
    rw [hdom] at hf
    cases hf
  | some dd =>
    rw [hdom] at hf
    by_cases hde : dd = ""
    · subst hde
      simp at hf
    · simp [hde] at hf
      subst hf
      exact ⟨q, hq, hdom, hde⟩

theorem lookupCtxs_of_mem (m : List (String × List Ctx)) (d : String) (v : List Ctx)
    (hnodup : (m.map (fun e => e.1)).Nodup) (hmem : (d, v) ∈ m) :
    lookupCtxs m d = some v := by
  induction m with
  | nil => cases hmem
  | cons e rest ih =>
    obtain ⟨k, cs⟩ := e
    rcases List.mem_cons.mp hmem with h | h
    · injection h with h1 h2
      subst h1
      subst h2
      rw [lookupCtxs]
      simp
    · have hdmem : d ∈ rest.map (fun e => e.1) := List.mem_map.mpr ⟨(d, v), h, rfl⟩
      have hknot : k ∉ rest.map (fun e => e.1) := (List.nodup_cons.mp hnodup).1
      have hbne : (k == d) = false := by
        simp only [beq_eq_false_iff_ne, ne_eq]
        rintro rfl
        exact hknot hdmem
      rw [lookupCtxs, hbne]
      simp only [Bool.false_eq_true, if_false]
      exact ih (List.nodup_cons.mp hnodup).2 h

theorem buildDomainMap_entry_eq (qs : List PQuery) (d : String) (ctxs : List Ctx)
    (hdne : d ≠ "") (h : lookupCtxs (buildDomainMap qs) d = some ctxs) :
    ctxs = ctxsOf d qs := by
  rw [buildDomainMap, lookupCtxs_foldl qs [] d hdne] at h
  have hnil : lookupCtxs [] d = none := rfl
  rw [hnil] at h
  by_cases he : (ctxsOf d qs).isEmpty
  · rw [if_pos he] at h
    cases h
  · rw [if_neg he] at h
    exact (Option.some.inj h).symm

theorem truthyDomains_of_norm (qs : List PQuery)
    (hnorm : ∀ q ∈ qs, normalizedQ q = true) :
    truthyDomains qs = qs.filterMap (fun q => q.domain) := by
  induction qs with
  | nil => rfl
  | cons q qs ih =>
    rcases normalizedQ_domain q (hnorm q (List.mem_cons_self q qs)) with ⟨d, hd, hde⟩
    rw [truthyDomains_cons_some q qs d hd hde, List.filterMap_cons, hd,
      ih (fun x hx => hnorm x (List.mem_cons_of_mem _ hx))]

theorem truthyDomains_length_of_norm (qs : List PQuery)
    (hnorm : ∀ q ∈ qs, normalizedQ q = true) :
    (truthyDomains qs).length = qs.length := by
  induction qs with
  | nil => rfl
  | cons q qs ih =>
    rcases normalizedQ_domain q (hnorm q (List.mem_cons_self q qs)) with ⟨d, hd, hde⟩
    rw [truthyDomains_cons_some q qs d hd hde, List.length_cons, List.length_cons,
      ih (fun x hx => hnorm x (List.mem_cons_of_mem _ hx))]

/-! ## Claim C5 -/

/-- Claim C5: for a batch of new queries that all passed normalization
(truthy domain and timestamp), the built domain-to-context map has
exactly the distinct referenced domains as keys, in first-seen order
(dedupFirst of the domain sequence); the keys are pairwise distinct;
every context list is non-empty; and the context entries across all
lists total exactly the number of queries in the batch. -/
theorem C5_dedup_completeness (new_queries : List PQuery)
    (hnorm : ∀ q ∈ new_queries, normalizedQ q = true) :
    (buildDomainMap new_queries).map (fun e => e.1)
        = dedupFirst (new_queries.filterMap (fun q => q.domain)) ∧
    ((buildDomainMap new_queries).map (fun e => e.1)).Nodup ∧
    (∀ e ∈ buildDomainMap new_queries, e.2 ≠ []) ∧
    ((buildDomainMap new_queries).map (fun e => e.2.length)).sum = new_queries.length := by
  refine ⟨?_, buildDomainMap_keys_nodup new_queries, buildDomainMap_vals_ne_nil new_queries, ?_⟩
  · rw [buildDomainMap_keys, truthyDomains_of_norm new_queries hnorm]
  · rw [buildDomainMap_sum, truthyDomains_length_of_norm new_queries hnorm]

/-- Claim C5 witness: three normalized queries (a.com at 100, a.com at
120, b.com at 50) give a map with keys [a.com, b.com] in first-seen
order and three context entries in total. -/
theorem C5_dedup_completeness_witness :
    (buildDomainMap [qNewA, qNewA2, qOldB]).map (fun e => e.1) = ["a.com", "b.com"] ∧
    ((buildDomainMap [qNewA, qNewA2, qOldB]).map (fun e => e.2.length)).sum = 3 :=
  ⟨((C5_dedup_completeness [qNewA, qNewA2, qOldB] (by decide)).1).trans (by decide),
   ((C5_dedup_completeness [qNewA, qNewA2, qOldB] (by decide)).2.2.2).trans (by decide)⟩

/-! ## Lemmas about the findings loop -/

theorem save_finding_eq (dbc okf : Bool) (qt : Option Rat) (ip : Option String)
    (dom cat : String) (reason : Json) (src : String) :
    save_finding dbc okf qt ip dom cat reason src
      = (save_finding_passes dbc qt dom cat src && okf) := by
  rw [save_finding, save_finding_passes]
  by_cases hdb : dbc = true
  · by_cases h1 : (pyTruthyT qt && dom != "" && cat != "" && src != "") = true
    · by_cases h2 : (src == "AI" || src == "SafeBrowsing") = true
      · simp [hdb, h1, h2]
      · simp [hdb, h1, h2]
    · simp [hdb, h1]
  · simp [hdb]

theorem save_finding_passes_parts (dbc : Bool) (qt : Option Rat) (dom cat src : String)
    (h : save_finding_passes dbc qt dom cat src = true) :
    dbc = true ∧ pyTruthyT qt = true ∧ dom ≠ "" ∧ cat ≠ "" ∧
      (src = "AI" ∨ src = "SafeBrowsing") := by
  rw [save_finding_passes] at h
  simp only [Bool.and_eq_true, Bool.or_eq_true, bne_iff_ne, ne_eq, beq_iff_eq] at h
  exact ⟨h.1.1, h.1.2.1.1.1, h.1.2.1.1.2, h.1.2.1.2, h.2⟩

theorem processDomain_cases (dbc : Bool) (ok : Finding → Bool) (aiMap : List (Json × Json))
    (acc : LoopAcc) (d : String) (ctxs : List Ctx) (acc2 : LoopAcc)
    (h : processDomain dbc ok aiMap acc d ctxs = some acc2) :
    acc2 = acc ∨
    ∃ (c : Ctx) (cs : List Ctx) (cats : List String) (reason : Json),
      ctxs = c :: cs ∧
      acc2.attempted = (if save_finding_passes dbc c.timestamp d
            (String.intercalate ", " cats) "AI" = true
        then acc.attempted ++
          [⟨c.timestamp, c.client_ip, d, String.intercalate ", " cats, reason, "AI"⟩]
        else acc.attempted) ∧
      acc2.stored = (if (save_finding_passes dbc c.timestamp d
            (String.intercalate ", " cats) "AI" &&
            ok ⟨c.timestamp, c.client_ip, d, String.intercalate ", " cats, reason, "AI"⟩) = true
        then acc.stored ++
          [⟨c.timestamp, c.client_ip, d, String.intercalate ", " cats, reason, "AI"⟩]
        else acc.stored) ∧
      acc2.notify = (if ((save_finding_passes dbc c.timestamp d
            (String.intercalate ", " cats) "AI" &&
            ok ⟨c.timestamp, c.client_ip, d, String.intercalate ", " cats, reason, "AI"⟩) &&
            cats.any (fun x => NOTIFY_CATEGORIES.contains x)) = true
        then acc.notify ++
          [⟨c.timestamp, c.client_ip, d, String.intercalate ", " cats, reason, "AI"⟩]
        else acc.notify) ∧
      acc2.processed = acc.processed ++ [d] := by
  rw [processDomain] at h
  cases hfind : jdictFind aiMap (.str d) with
  | none =>
    rw [hfind] at h
    exact Or.inl (Option.some.inj h).symm
  | some ai_result =>
    rw [hfind] at h
    by_cases hproc : acc.processed.contains d = true
    · rw [hproc] at h
      simp only [if_true] at h
      exact Or.inl (Option.some.inj h).symm
    · have hpf : acc.processed.contains d = false := by
        cases hx : acc.processed.contains d
        · rfl
        · exact absurd hx hproc
      rw [hpf] at h
      simp only [Bool.false_eq_true, if_false] at h
      cases hcats : ai_result.pyGetD "categories" (.arr []) with
      | none =>
        rw [hcats] at h
        cases hreason : ai_result.pyGetD "reason" (.str "AI analysis result.") with
        | none => rw [hreason] at h; cases h
        | some r => rw [hreason] at h; cases h
      | some cats0 =>
        rw [hcats] at h
        cases hreason : ai_result.pyGetD "reason" (.str "AI analysis result.") with
        | none => rw [hreason] at h; cases h
        | some reason =>
          rw [hreason] at h
          simp only [] at h
          by_cases htr : cats0.truthy = true
          · rw [htr] at h
            simp only [if_true] at h
            cases hctx : ctxs with
            | nil =>
              rw [hctx] at h
              cases h
            | cons c cs =>
              rw [hctx] at h
              cases hiter : pyIterStrs cats0 with
              | none =>
                rw [hiter] at h
                cases h
              | some cats =>
                rw [hiter] at h
                have hacc2 := (Option.some.inj h).symm
                refine Or.inr ⟨c, cs, cats, reason, rfl, ?_, ?_, ?_, ?_⟩
                · rw [hacc2]
                · rw [hacc2]
                  rw [show (save_finding dbc
                      (ok ⟨c.timestamp, c.client_ip, d, String.intercalate ", " cats, reason, "AI"⟩)
                      c.timestamp c.client_ip d (String.intercalate ", " cats) reason "AI")
                    = (save_finding_passes dbc c.timestamp d (String.intercalate ", " cats) "AI" &&
                      ok ⟨c.timestamp, c.client_ip, d, String.intercalate ", " cats, reason, "AI"⟩)
                    from save_finding_eq dbc _ c.timestamp c.client_ip d
                      (String.intercalate ", " cats) reason "AI"]
                · rw [hacc2]
                  rw [show (save_finding dbc
                      (ok ⟨c.timestamp, c.client_ip, d, String.intercalate ", " cats, reason, "AI"⟩)
                      c.timestamp c.client_ip d (String.intercalate ", " cats) reason "AI")
                    = (save_finding_passes dbc c.timestamp d (String.intercalate ", " cats) "AI" &&
                      ok ⟨c.timestamp, c.client_ip, d, String.intercalate ", " cats, reason, "AI"⟩)
                    from save_finding_eq dbc _ c.timestamp c.client_ip d
                      (String.intercalate ", " cats) reason "AI"]
                · rw [hacc2]
          · have htf : cats0.truthy = false := by
              cases hx : cats0.truthy
              · rfl
              · exact absurd hx htr
            rw [htf] at h
            simp only [Bool.false_eq_true, if_false] at h
            exact Or.inl (Option.some.inj h).symm

theorem processDomain_inv (dbc : Bool) (ok : Finding → Bool)
    (dmap : List (String × List Ctx)) (aiMap : List (Json × Json))
    (acc : LoopAcc) (d : String) (ctxs : List Ctx) (acc2 : LoopAcc)
    (hentry : lookupCtxs dmap d = some ctxs)
    (hstep : processDomain dbc ok aiMap acc d ctxs = some acc2)
    (hinv : LoopInv dbc ok dmap acc) : LoopInv dbc ok dmap acc2 := by
  rcases processDomain_cases dbc ok aiMap acc d ctxs acc2 hstep with heq | hbig
  · rw [heq]
    exact hinv
  · obtain ⟨c, cs, cats, reason, hctx, hatt, hsto, hnot, _⟩ := hbig
    obtain ⟨hIa, hIs, hIn⟩ := hinv
    refine ⟨?_, ?_, ?_⟩
    · intro f hf
      rw [hatt] at hf
      by_cases hp : save_finding_passes dbc c.timestamp d
          (String.intercalate ", " cats) "AI" = true
      · rw [if_pos hp] at hf
        rcases List.mem_append.mp hf with hold | hnew
        · exact hIa f hold
        · rcases List.mem_singleton.mp hnew with rfl
          exact hp
      · rw [if_neg hp] at hf
        exact hIa f hf
    · intro f hf
      rw [hsto] at hf
      by_cases hp : (save_finding_passes dbc c.timestamp d (String.intercalate ", " cats) "AI" &&
          ok ⟨c.timestamp, c.client_ip, d, String.intercalate ", " cats, reason, "AI"⟩) = true
      · rw [if_pos hp] at hf
        rcases List.mem_append.mp hf with hold | hnew
        · exact hIs f hold
        · rcases List.mem_singleton.mp hnew with rfl
          have hok := Bool.and_elim_right hp
          have hpass := Bool.and_elim_left hp
          refine ⟨hok, hpass, c, cs, ?_, rfl, rfl⟩
          rw [hctx] at hentry
          exact hentry
      · rw [if_neg hp] at hf
        exact hIs f hf
    · intro n hn
      have hstomono : ∀ g ∈ acc.stored, g ∈ acc2.stored := by
        intro g hg
        rw [hsto]
        by_cases hp : (save_finding_passes dbc c.timestamp d
            (String.intercalate ", " cats) "AI" &&
            ok ⟨c.timestamp, c.client_ip, d, String.intercalate ", " cats, reason, "AI"⟩) = true
        · rw [if_pos hp]
          exact List.mem_append_left _ hg
        · rw [if_neg hp]
          exact hg
      rw [hnot] at hn
      by_cases hp : ((save_finding_passes dbc c.timestamp d (String.intercalate ", " cats) "AI" &&
          ok ⟨c.timestamp, c.client_ip, d, String.intercalate ", " cats, reason, "AI"⟩) &&
          cats.any (fun x => NOTIFY_CATEGORIES.contains x)) = true
      · rw [if_pos hp] at hn
        rcases List.mem_append.mp hn with hold | hnew
        · rcases hIn n hold with ⟨hmem, hcats⟩
          exact ⟨hstomono _ hmem, hcats⟩
        · rcases List.mem_singleton.mp hnew with rfl
          refine ⟨?_, cats, rfl, Bool.and_elim_right hp⟩
          rw [hsto, if_pos (Bool.and_elim_left hp)]
          exact List.mem_append_right _ (List.mem_singleton.mpr rfl)
      · rw [if_neg hp] at hn
        rcases hIn n hn with ⟨hmem, hcats⟩
        exact ⟨hstomono _ hmem, hcats⟩

theorem processFindingsLoop_inv (dbc : Bool) (ok : Finding → Bool)
    (aiMap : List (Json × Json)) (dmap : List (String × List Ctx))
    (entries : List (String × List Ctx)) (acc : LoopAcc)
    (hentries : ∀ e ∈ entries, lookupCtxs dmap e.1 = some e.2)
    (hinv : LoopInv dbc ok dmap acc) :
    LoopInv dbc ok dmap (processFindingsLoop dbc ok aiMap entries acc).1 := by
  induction entries generalizing acc with
  | nil => exact hinv
  | cons e rest ih =>
    obtain ⟨d, ctxs⟩ := e
    rw [processFindingsLoop]
    cases hstep : processDomain dbc ok aiMap acc d ctxs with
    | none => exact hinv
    | some acc3 =>
      exact ih acc3 (fun x hx => hentries x (List.mem_cons_of_mem _ hx))
        (processDomain_inv dbc ok dmap aiMap acc d ctxs acc3
          (hentries (d, ctxs) (List.mem_cons_self _ _)) hstep hinv)

theorem LoopInv_empty (dbc : Bool) (ok : Finding → Bool)
    (dmap : List (String × List Ctx)) : LoopInv dbc ok dmap ⟨[], [], [], []⟩ := by
  refine ⟨?_, ?_, ?_⟩
  · intro f hf
    cases hf
  · intro f hf
    cases hf
  · intro n hn
    cases hn

theorem resultsStage_inv (inp : CycleInput) (dmap : List (String × List Ctx))
    (ai : Option (List Json)) (acc : LoopAcc) (flag : Bool)
    (hentries : ∀ e ∈ dmap, lookupCtxs dmap e.1 = some e.2)
    (hres : resultsStage inp dmap ai = some (acc, flag)) :
    LoopInv inp.dbConfigured inp.insertOk dmap acc := by
  rw [resultsStage.eq_def] at hres
  cases ai with
  | none =>
    have := Option.some.inj hres
    have hacc : acc = ⟨[], [], [], []⟩ := (Prod.mk.injEq _ _ _ _ ▸ this.symm :).1
    rw [hacc]
    exact LoopInv_empty _ _ _
  | some results =>
    simp only [] at hres
    by_cases hre : results.isEmpty = true
    · rw [hre] at hres
      simp only [Bool.not_true, Bool.false_eq_true, if_false] at hres
      have := Option.some.inj hres
      have hacc : acc = ⟨[], [], [], []⟩ := (Prod.mk.injEq _ _ _ _ ▸ this.symm :).1
      rw [hacc]
      exact LoopInv_empty _ _ _
    · have hrf : results.isEmpty = false := by
        cases hx : results.isEmpty
        · rfl
        · exact absurd hx hre
      rw [hrf] at hres
      simp only [Bool.not_false, if_true] at hres
      cases hmap : buildAiMap results with
      | none =>
        rw [hmap] at hres
        cases hres
      | some aiMap =>
        rw [hmap] at hres
        have hloop := processFindingsLoop_inv inp.dbConfigured inp.insertOk aiMap dmap dmap
          ⟨[], [], [], []⟩ hentries (LoopInv_empty _ _ _)
        have : (processFindingsLoop inp.dbConfigured inp.insertOk aiMap dmap ⟨[], [], [], []⟩).1
            = acc := by
          have h2 := Option.some.inj hres
          rw [h2]
        rw [this] at hloop
        exact hloop

theorem buildDomainMap_self_lookup (qs : List PQuery) :
    ∀ e ∈ buildDomainMap qs, lookupCtxs (buildDomainMap qs) e.1 = some e.2 := by
  intro e he
  obtain ⟨d, v⟩ := e
  exact lookupCtxs_of_mem _ _ _ (buildDomainMap_keys_nodup qs) he

theorem cycle_acc_shape (inp : CycleInput) :
    ((run_analysis_cycle inp).attempted = [] ∧ (run_analysis_cycle inp).stored = [] ∧
      (run_analysis_cycle inp).notify = []) ∨
    ∃ raw acc, inp.fetch = some raw ∧
      LoopInv inp.dbConfigured inp.insertOk
        (buildDomainMap (raw.filter (isNewQuery inp.lastCheck))) acc ∧
      (run_analysis_cycle inp).attempted = acc.attempted ∧
      (run_analysis_cycle inp).stored = acc.stored ∧
      (run_analysis_cycle inp).notify = acc.notify := by
  cases hauth : inp.auth with
  | none =>
    simp only [run_analysis_cycle, hauth]
    exact Or.inl ⟨rfl, rfl, rfl⟩
  | some sid =>
    cases hfetch : inp.fetch with
    | none =>
      simp only [run_analysis_cycle, hauth, hfetch]
      exact Or.inl ⟨rfl, rfl, rfl⟩
    | some raw =>
      rw [run_eq_core inp sid raw hauth hfetch]
      by_cases hraw : raw = []
      · subst hraw
        rw [cycleCore_empty]
        exact Or.inl ⟨rfl, rfl, rfl⟩
      · by_cases hnonew : raw.filter (isNewQuery inp.lastCheck) = []
        · rw [cycleCore_no_new inp raw hraw hnonew]
          cases hM : pyMax (truthyTimestamps raw) with
          | none => exact Or.inl ⟨rfl, rfl, rfl⟩
          | some M => exact Or.inl ⟨rfl, rfl, rfl⟩
        · obtain ⟨m, hm⟩ := pyMax_isSome _
            (truthyTimestamps_filter_new_ne_nil inp.lastCheck raw hnonew)
          rw [cycleCore_of_new inp raw m hnonew hm]
          cases hres : resultsStage inp (buildDomainMap (raw.filter (isNewQuery inp.lastCheck)))
              (classifierStage inp (raw.filter (isNewQuery inp.lastCheck))
                ((buildDomainMap (raw.filter (isNewQuery inp.lastCheck))).map (fun e => e.1))) with
          | none => exact Or.inl ⟨rfl, rfl, rfl⟩
          | some accFlag =>
            obtain ⟨acc, crashed⟩ := accFlag
            have hinv := resultsStage_inv inp
              (buildDomainMap (raw.filter (isNewQuery inp.lastCheck))) _ acc crashed
              (buildDomainMap_self_lookup _) hres
            cases crashed with
            | true => exact Or.inr ⟨raw, acc, rfl, hinv, rfl, rfl, rfl⟩
            | false =>
              rcases finishCycle_acc inp raw m acc with ⟨h1, h2, h3, _⟩
              exact Or.inr ⟨raw, acc, rfl, hinv, h1, h2, h3⟩

theorem cycle_stored_facts (inp : CycleInput) :
    (∀ f ∈ (run_analysis_cycle inp).attempted,
      save_finding_passes inp.dbConfigured f.query_timestamp f.domain f.category f.source
        = true) ∧
    (∀ f ∈ (run_analysis_cycle inp).stored,
      inp.insertOk f = true ∧
      save_finding_passes inp.dbConfigured f.query_timestamp f.domain f.category f.source
        = true ∧
      ∃ raw c cs, inp.fetch = some raw ∧
        lookupCtxs (buildDomainMap (raw.filter (isNewQuery inp.lastCheck))) f.domain
          = some (c :: cs) ∧
        f.query_timestamp = c.timestamp ∧ f.client_ip = c.client_ip) ∧
    (∀ n ∈ (run_analysis_cycle inp).notify,
      n.toFinding ∈ (run_analysis_cycle inp).stored ∧
      ∃ cats : List String, n.category = String.intercalate ", " cats ∧
        cats.any (fun x => NOTIFY_CATEGORIES.contains x) = true) := by
  rcases cycle_acc_shape inp with ⟨ha, hs, hn⟩ | ⟨raw, acc, hfetch, hinv, ha, hs, hn⟩
  · refine ⟨?_, ?_, ?_⟩
    · intro f hf
      rw [ha] at hf
      cases hf
    · intro f hf
      rw [hs] at hf
      cases hf
    · intro n hn2
      rw [hn] at hn2
      cases hn2
  · obtain ⟨hIa, hIs, hIn⟩ := hinv
    refine ⟨?_, ?_, ?_⟩
    · intro f hf
      rw [ha] at hf
      exact hIa f hf
    · intro f hf
      rw [hs] at hf
      rcases hIs f hf with ⟨hok, hpass, c, cs, hlook, h1, h2⟩
      exact ⟨hok, hpass, raw, c, cs, hfetch, hlook, h1, h2⟩
    · intro n hn2
      rw [hn] at hn2
      rcases hIn n hn2 with ⟨hmem, hcats⟩
      refine ⟨?_, hcats⟩
      rw [hs]
      exact hmem

/-! ## Claim C6 -/

/-- Claim C6: every Finding the cycle stores takes its query_timestamp
and client_ip from the first-seen context of its domain: the context
list recorded for a domain equals the batch-ordered list of that
domain's contexts among the new queries (ctxsOf), and the stored
Finding carries exactly the head of that list.  The statement
quantifies over every world, so it holds regardless of the order of
the classifier's reply and of how many later queries reference the
same domain. -/
theorem C6_first_seen_representative (inp : CycleInput) (f : Finding)
    (hf : f ∈ (run_analysis_cycle inp).stored) :
    ∃ raw c cs, inp.fetch = some raw ∧
      ctxsOf f.domain (raw.filter (isNewQuery inp.lastCheck)) = c :: cs ∧
      f.query_timestamp = c.timestamp ∧ f.client_ip = c.client_ip := by
  rcases (cycle_stored_facts inp).2.1 f hf with ⟨_, hpass, raw, c, cs, hfetch, hlook, h1, h2⟩
  have hdom := (save_finding_passes_parts _ _ _ _ _ hpass).2.2.1
  have hctx := buildDomainMap_entry_eq (raw.filter (isNewQuery inp.lastCheck)) f.domain
    (c :: cs) hdom hlook
  exact ⟨raw, c, cs, hfetch, hctx.symm, h1, h2⟩

/-- Claim C6 witness: in the healthy world the stored a.com Finding
carries timestamp 100 and client 10.0.0.5, the context of the first
new a.com query even though a second a.com query (time 120) exists. -/
theorem C6_first_seen_representative_witness :
    ∃ raw c cs, worldGood.fetch = some raw ∧
      ctxsOf "a.com" (raw.filter (isNewQuery worldGood.lastCheck)) = c :: cs ∧
      (some (100 : Rat)) = c.timestamp ∧ (some "10.0.0.5") = c.client_ip := by
  have hmem : (⟨some 100, some "10.0.0.5", "a.com", "Malicious", Json.str "bad", "AI"⟩ : Finding)
      ∈ (run_analysis_cycle worldGood).stored := by
    rw [show (run_analysis_cycle worldGood).stored
        = [⟨some 100, some "10.0.0.5", "a.com", "Malicious", Json.str "bad", "AI"⟩] from rfl]
    exact List.mem_singleton.mpr rfl
  exact C6_first_seen_representative worldGood _ hmem

/-! ## Claim C7 -/

/-- Claim C7: a classifier result whose categories value is falsy (in
particular the empty list) makes the loop body leave the attempted and
stored lists untouched for that domain: no storage call is made at
all.  Consequently (second conjunct, over every world) every stored
Finding has a non-empty category string, since the save_finding
validation rejects an empty category. -/
theorem C7_empty_categories_suppressed (dbc : Bool) (ok : Finding → Bool)
    (aiMap : List (Json × Json)) (acc : LoopAcc) (d : String) (ctxs : List Ctx)
    (acc2 : LoopAcc) (item cats : Json)
    (hfind : jdictFind aiMap (.str d) = some item)
    (hcats : item.pyGetD "categories" (.arr []) = some cats)
    (hempty : cats.truthy = false)
    (hstep : processDomain dbc ok aiMap acc d ctxs = some acc2) :
    (acc2.attempted = acc.attempted ∧ acc2.stored = acc.stored ∧
      acc2.notify = acc.notify) ∧
    (∀ inp : CycleInput, ∀ f ∈ (run_analysis_cycle inp).stored, f.category ≠ "") := by
  constructor
  · rw [processDomain, hfind] at hstep
    by_cases hproc : acc.processed.contains d = true
    · rw [hproc] at hstep
      simp only [if_true] at hstep
      rw [← Option.some.inj hstep]
      exact ⟨rfl, rfl, rfl⟩
    · have hpf : acc.processed.contains d = false := by
        cases hx : acc.processed.contains d
        · rfl
        · exact absurd hx hproc
      rw [hpf] at hstep
      simp only [Bool.false_eq_true, if_false] at hstep
      cases item with
      | obj kvs =>
        rw [show (Json.obj kvs).pyGetD "reason" (.str "AI analysis result.")
            = some ((lookupStr kvs "reason").getD (.str "AI analysis result.")) from rfl,
          hcats] at hstep
        simp only [] at hstep
        rw [hempty] at hstep
        simp only [Bool.false_eq_true, if_false] at hstep
        rw [← Option.some.inj hstep]
        exact ⟨rfl, rfl, rfl⟩
      | null => cases hcats
      | bool b => cases hcats
      | num q => cases hcats
      | str s => cases hcats
      | arr xs => cases hcats
  · intro inp f hf
    have hpass := ((cycle_stored_facts inp).2.1 f hf).2.1
    exact (save_finding_passes_parts _ _ _ _ _ hpass).2.2.2.1

/-- Claim C7 witness: a reply item for a.com with categories [] makes
the loop body return the accumulator unchanged: nothing is attempted
and nothing is stored for a.com. -/
theorem C7_empty_categories_suppressed_witness :
    (emptyLoopAcc.attempted = emptyLoopAcc.attempted ∧
      emptyLoopAcc.stored = emptyLoopAcc.stored ∧
      emptyLoopAcc.notify = emptyLoopAcc.notify) ∧
    (∀ inp : CycleInput, ∀ f ∈ (run_analysis_cycle inp).stored, f.category ≠ "") :=
  C7_empty_categories_suppressed true (fun _ => true) aiMapEmptyCatsA emptyLoopAcc "a.com"
    [⟨some 100, some "10.0.0.5"⟩] emptyLoopAcc itemEmptyCatsA (Json.arr [])
    rfl rfl rfl rfl

/-! ## Claim C10 -/

/-- Claim C10: save_finding returns False for query_timestamp 0.0 (the
epoch is falsy in Python), whatever the other validated fields are and
whether or not the INSERT would succeed; the same truthiness check
rejects an empty category and an empty source before any database
access; consequently every notification candidate of any cycle has a
truthy (present and non-zero) timestamp. -/
theorem C10_epoch_timestamp_rejected (dbc ok : Bool) (ip : Option String)
    (dom cat : String) (reason : Json) (src : String) :
    save_finding dbc ok (some 0) ip dom cat reason src = false ∧
    (∀ qt, save_finding dbc ok qt ip dom "" reason src = false) ∧
    (∀ qt cat2, save_finding dbc ok qt ip dom cat2 reason "" = false) ∧
    (∀ inp : CycleInput, ∀ n ∈ (run_analysis_cycle inp).notify,
      pyTruthyT n.timestamp = true) := by
  have h0 : pyTruthyT (some 0) = false := by decide
  refine ⟨?_, ?_, ?_, ?_⟩
  · rw [save_finding_eq, save_finding_passes, h0]
    simp
  · intro qt
    rw [save_finding_eq, save_finding_passes]
    simp
  · intro qt cat2
    rw [save_finding_eq, save_finding_passes]
    simp
  · intro inp n hn
    have hmem := ((cycle_stored_facts inp).2.2 n hn).1
    have hpass := ((cycle_stored_facts inp).2.1 n.toFinding hmem).2.1
    exact (save_finding_passes_parts _ _ _ _ _ hpass).2.1

/-- Claim C10 witness: with the database configured, a successful
INSERT oracle and otherwise valid fields, a timestamp of exactly 0.0
still makes save_finding return False; and the worldGood notification
candidate indeed carries a truthy timestamp. -/
theorem C10_epoch_timestamp_rejected_witness :
    save_finding true true (some 0) (some "10.0.0.5") "a.com" "Malicious"
      (Json.str "bad") "AI" = false ∧
    pyTruthyT notifGoodA.timestamp = true := by
  refine ⟨(C10_epoch_timestamp_rejected true true (some "10.0.0.5") "a.com" "Malicious"
    (Json.str "bad") "AI").1, ?_⟩
  refine (C10_epoch_timestamp_rejected true true (some "10.0.0.5") "a.com" "Malicious"
    (Json.str "bad") "AI").2.2.2 worldGood notifGoodA ?_
  rw [show (run_analysis_cycle worldGood).notify = [notifGoodA] from rfl]
  exact List.mem_singleton.mpr rfl

/-! ## Independence of the processed set from INSERT success (claim C4) -/

theorem processDomain_ok_indep (dbc : Bool) (ok1 ok2 : Finding → Bool)
    (aiMap : List (Json × Json)) (d : String) (ctxs : List Ctx)
    (acc1 acc2 : LoopAcc) (hp : acc1.processed = acc2.processed) :
    (processDomain dbc ok1 aiMap acc1 d ctxs = none ∧
      processDomain dbc ok2 aiMap acc2 d ctxs = none) ∨
    (∃ a1 a2, processDomain dbc ok1 aiMap acc1 d ctxs = some a1 ∧
      processDomain dbc ok2 aiMap acc2 d ctxs = some a2 ∧
      a1.processed = a2.processed) := by
  simp only [processDomain]
  rw [hp]
  cases hfind : jdictFind aiMap (.str d) with
  | none => exact Or.inr ⟨acc1, acc2, rfl, rfl, hp⟩
  | some ai_result =>
    simp only []
    cases hproc : acc2.processed.contains d with
    | true => exact Or.inr ⟨acc1, acc2, rfl, rfl, hp⟩
    | false =>
      simp only [Bool.false_eq_true, if_false]
      cases hcats : ai_result.pyGetD "categories" (.arr []) with
      | none =>
        cases hreason : ai_result.pyGetD "reason" (.str "AI analysis result.") with
        | none => exact Or.inl ⟨rfl, rfl⟩
        | some r => exact Or.inl ⟨rfl, rfl⟩
      | some cats0 =>
        cases hreason : ai_result.pyGetD "reason" (.str "AI analysis result.") with
        | none => exact Or.inl ⟨rfl, rfl⟩
        | some reason =>
          simp only []
          cases htr : cats0.truthy with
          | false => exact Or.inr ⟨acc1, acc2, rfl, rfl, hp⟩
          | true =>
            cases ctxs with
            | nil => exact Or.inl ⟨rfl, rfl⟩
            | cons c cs =>
              cases hiter : pyIterStrs cats0 with
              | none => exact Or.inl ⟨rfl, rfl⟩
              | some cats => exact Or.inr ⟨_, _, rfl, rfl, rfl⟩

theorem processFindingsLoop_ok_indep (dbc : Bool) (ok1 ok2 : Finding → Bool)
    (aiMap : List (Json × Json)) (entries : List (String × List Ctx)) :
    ∀ acc1 acc2 : LoopAcc, acc1.processed = acc2.processed →
      (processFindingsLoop dbc ok1 aiMap entries acc1).1.processed =
        (processFindingsLoop dbc ok2 aiMap entries acc2).1.processed ∧
      (processFindingsLoop dbc ok1 aiMap entries acc1).2 =
        (processFindingsLoop dbc ok2 aiMap entries acc2).2 := by
  induction entries with
  | nil =>
    intro acc1 acc2 hp
    exact ⟨hp, rfl⟩
  | cons e rest ih =>
    intro acc1 acc2 hp
    obtain ⟨d, ctxs⟩ := e
    rcases processDomain_ok_indep dbc ok1 ok2 aiMap d ctxs acc1 acc2 hp with
      ⟨h1, h2⟩ | ⟨a1, a2, h1, h2, hpp⟩
    · simp only [processFindingsLoop]
      rw [h1, h2]
      exact ⟨hp, rfl⟩
    · simp only [processFindingsLoop]
      rw [h1, h2]
      exact ih a1 a2 hpp

theorem classifierStage_congr (inpA inpB : CycleInput)
    (hcfg : inpA.modelConfigured = inpB.modelConfigured)
    (hreply : inpA.apiReply = inpB.apiReply)
    (nq : List PQuery) (ud : List String) :
    classifierStage inpA nq ud = classifierStage inpB nq ud := by
  rw [classifierStage, classifierStage, hcfg, hreply]

theorem resultsStage_ok_indep (inpA inpB : CycleInput)
    (hdbc : inpA.dbConfigured = inpB.dbConfigured)
    (dmap : List (String × List Ctx)) (ai : Option (List Json)) :
    (resultsStage inpA dmap ai = none ∧ resultsStage inpB dmap ai = none) ∨
    (∃ p1 p2, resultsStage inpA dmap ai = some p1 ∧ resultsStage inpB dmap ai = some p2 ∧
      p1.1.processed = p2.1.processed ∧ p1.2 = p2.2) := by
  rw [resultsStage.eq_def, resultsStage.eq_def, hdbc]
  cases ai with
  | none =>
    exact Or.inr ⟨(⟨[], [], [], []⟩, false), (⟨[], [], [], []⟩, false), rfl, rfl, rfl, rfl⟩
  | some results =>
    simp only []
    cases hemp : results.isEmpty with
    | true =>
      exact Or.inr ⟨(⟨[], [], [], []⟩, false), (⟨[], [], [], []⟩, false), rfl, rfl, rfl, rfl⟩
    | false =>
      cases hmap : buildAiMap results with
      | none => exact Or.inl ⟨rfl, rfl⟩
      | some aiMap =>
        rcases processFindingsLoop_ok_indep inpB.dbConfigured inpA.insertOk inpB.insertOk
          aiMap dmap ⟨[], [], [], []⟩ ⟨[], [], [], []⟩ rfl with ⟨hpp, hbb⟩
        exact Or.inr ⟨_, _, rfl, rfl, hpp, hbb⟩

theorem cycleCore_ok_indep (inpA inpB : CycleInput) (raw : List PQuery)
    (hlast : inpA.lastCheck = inpB.lastCheck)
    (hcfg : inpA.modelConfigured = inpB.modelConfigured)
    (hreply : inpA.apiReply = inpB.apiReply)
    (hdbc : inpA.dbConfigured = inpB.dbConfigured) :
    (cycleCore inpA raw).processed = (cycleCore inpB raw).processed := by
  by_cases hraw : raw = []
  · subst hraw
    rfl
  · by_cases hnonew : raw.filter (isNewQuery inpB.lastCheck) = []
    · rw [cycleCore_no_new inpA raw hraw (by rw [hlast]; exact hnonew),
        cycleCore_no_new inpB raw hraw hnonew]
      cases hM : pyMax (truthyTimestamps raw) with
      | none => rfl
      | some M => rfl
    · have hnonewA : raw.filter (isNewQuery inpA.lastCheck) ≠ [] := by
        rw [hlast]
        exact hnonew
      obtain ⟨m, hm⟩ := pyMax_isSome _
        (truthyTimestamps_filter_new_ne_nil inpB.lastCheck raw hnonew)
      have hmA : pyMax (truthyTimestamps (raw.filter (isNewQuery inpA.lastCheck)))
          = some m := by
        rw [hlast]
        exact hm
      rw [cycleCore_of_new inpA raw m hnonewA hmA, cycleCore_of_new inpB raw m hnonew hm,
        hlast, classifierStage_congr inpA inpB hcfg hreply _ _]
      rcases resultsStage_ok_indep inpA inpB hdbc
          (buildDomainMap (raw.filter (isNewQuery inpB.lastCheck)))
          (classifierStage inpB (raw.filter (isNewQuery inpB.lastCheck))
            ((buildDomainMap (raw.filter (isNewQuery inpB.lastCheck))).map (fun e => e.1)))
        with ⟨h1, h2⟩ | ⟨p1, p2, h1, h2, hpp, hbb⟩
      · rw [h1, h2]
      · rw [h1, h2]
        obtain ⟨acc1, b1⟩ := p1
        obtain ⟨acc2, b2⟩ := p2
        cases hbb
        cases b1 with
        | true => exact hpp
        | false =>
          show (finishCycle inpA raw m acc1).processed
            = (finishCycle inpB raw m acc2).processed
          rw [(finishCycle_acc inpA raw m acc1).2.2.2,
            (finishCycle_acc inpB raw m acc2).2.2.2]
          exact hpp

theorem cycle_processed_ok_indep (inpA inpB : CycleInput)
    (hauth : inpA.auth = inpB.auth) (hfetch : inpA.fetch = inpB.fetch)
    (hlast : inpA.lastCheck = inpB.lastCheck)
    (hcfg : inpA.modelConfigured = inpB.modelConfigured)
    (hreply : inpA.apiReply = inpB.apiReply)
    (hdbc : inpA.dbConfigured = inpB.dbConfigured) :
    (run_analysis_cycle inpA).processed = (run_analysis_cycle inpB).processed := by
  rw [run_analysis_cycle.eq_def, run_analysis_cycle.eq_def, hauth, hfetch]
  cases hA : inpB.auth with
  | none => rfl
  | some sid =>
    cases hF : inpB.fetch with
    | none => rfl
    | some raw => exact cycleCore_ok_indep inpA inpB raw hlast hcfg hreply hdbc

/-! ## Claim C4 -/

/-- Claim C4 (amended): the storage success gates the notification — a
candidate is appended only when the save returned True (every
notification candidate corresponds to a stored Finding whose category
list intersects the alert set), and every stored Finding had a
successful INSERT; but the processed mark is NOT gated on storage
success: the processed set is identical whatever the INSERT oracle
answers, because main.py adds the domain to processed_domains outside
the success branch. -/
theorem C4_store_success_gating (inp : CycleInput) :
    (∀ n ∈ (run_analysis_cycle inp).notify,
      n.toFinding ∈ (run_analysis_cycle inp).stored ∧
      ∃ cats : List String, n.category = String.intercalate ", " cats ∧
        cats.any (fun x => NOTIFY_CATEGORIES.contains x) = true) ∧
    (∀ f ∈ (run_analysis_cycle inp).stored, inp.insertOk f = true) ∧
    (∀ (auth : Option String) (fetch : Option (List PQuery)) (last : Rat)
        (cfg : Bool) (reply : Option String) (dbc : Bool) (ok1 ok2 : Finding → Bool)
        (em : Bool) (fmt : Rat → String),
      (run_analysis_cycle ⟨auth, fetch, last, cfg, reply, dbc, ok1, em, fmt⟩).processed =
        (run_analysis_cycle ⟨auth, fetch, last, cfg, reply, dbc, ok2, em, fmt⟩).processed) := by
  refine ⟨?_, ?_, ?_⟩
  · intro n hn
    exact (cycle_stored_facts inp).2.2 n hn
  · intro f hf
    exact ((cycle_stored_facts inp).2.1 f hf).1
  · intro auth fetch last cfg reply dbc ok1 ok2 em fmt
    exact cycle_processed_ok_indep _ _ rfl rfl rfl rfl rfl rfl

/-- Claim C4 counterexample: in the world where every INSERT fails, the
Finding for a.com is attempted and not stored, no notification
candidate is produced — yet a.com is still marked processed, refuting
the claim that the processed mark requires storage success. -/
theorem C4_counterexample :
    (run_analysis_cycle worldStoreFail).stored = [] ∧
    (run_analysis_cycle worldStoreFail).attempted ≠ [] ∧
    (run_analysis_cycle worldStoreFail).notify = [] ∧
    (run_analysis_cycle worldStoreFail).processed = ["a.com"] := by
  refine ⟨rfl, ?_, rfl, rfl⟩
  rw [show (run_analysis_cycle worldStoreFail).attempted
      = [⟨some 100, some "10.0.0.5", "a.com", "Malicious", Json.str "bad", "AI"⟩] from rfl]
  exact List.cons_ne_nil _ _

/-- Claim C4 witness: in the healthy world the notification candidate
for a.com corresponds to a stored Finding with a successful INSERT. -/
theorem C4_store_success_gating_witness :
    notifGoodA.toFinding ∈ (run_analysis_cycle worldGood).stored ∧
    worldGood.insertOk notifGoodA.toFinding = true := by
  have hmem : notifGoodA ∈ (run_analysis_cycle worldGood).notify := by
    rw [show (run_analysis_cycle worldGood).notify = [notifGoodA] from rfl]
    exact List.mem_singleton.mpr rfl
  have h1 := ((C4_store_success_gating worldGood).1 notifGoodA hmem).1
  have h2 := (C4_store_success_gating worldGood).2.1 notifGoodA.toFinding h1
  exact ⟨h1, h2⟩

/-! ## Digest rendering (claim C9) -/

theorem finishWatermark_digest (inp : CycleInput) (raw : List PQuery) (latest : Rat)
    (acc : LoopAcc) (dg : Option (String × String)) (em : Option Bool) :
    (finishWatermark inp raw latest acc dg em).digest = dg := by
  rw [finishWatermark]
  by_cases h : 0 < latest
  · rw [if_pos h]
  · rw [if_neg h]
    cases pyMax (truthyTimestamps raw) with
    | none => rfl
    | some m => rfl

theorem finishCycle_digest (inp : CycleInput) (raw : List PQuery) (latest : Rat)
    (acc : LoopAcc) (sb : String × String)
    (h : (finishCycle inp raw latest acc).digest = some sb) :
    renderDigest inp.fmtTime acc.notify = some sb := by
  rw [finishCycle] at h
  by_cases hn : acc.notify.isEmpty
  · simp only [hn, Bool.not_true, Bool.false_eq_true, if_false] at h
    rw [finishWatermark_digest] at h
    cases h
  · have hn2 : acc.notify.isEmpty = false := by
      cases hx : acc.notify.isEmpty
      · rfl
      · exact absurd hx hn
    simp only [hn2, Bool.not_false, if_true] at h
    cases hrd : renderDigest inp.fmtTime acc.notify with
    | none =>
      rw [hrd] at h
      cases h
    | some sb2 =>
      rw [hrd] at h
      rw [finishWatermark_digest] at h
      exact h

theorem cycle_digest_shape (inp : CycleInput) (sb : String × String)
    (h : (run_analysis_cycle inp).digest = some sb) :
    renderDigest inp.fmtTime (run_analysis_cycle inp).notify = some sb := by
  cases hauth : inp.auth with
  | none =>
    have he : run_analysis_cycle inp = noEffects .authFailed := by
      simp only [run_analysis_cycle, hauth]
    rw [he] at h
    cases h
  | some sid =>
    cases hfetch : inp.fetch with
    | none =>
      have he : run_analysis_cycle inp = noEffects .fetchFailed := by
        simp only [run_analysis_cycle, hauth, hfetch]
      rw [he] at h
      cases h
    | some raw =>
      rw [run_eq_core inp sid raw hauth hfetch] at h ⊢
      by_cases hraw : raw = []
      · subst hraw
        rw [cycleCore_empty] at h
        cases h
      · by_cases hnonew : raw.filter (isNewQuery inp.lastCheck) = []
        · rw [cycleCore_no_new inp raw hraw hnonew] at h
          cases hM : pyMax (truthyTimestamps raw) with
          | none =>
            rw [hM] at h
            exact Option.noConfusion h
          | some M =>
            rw [hM] at h
            exact Option.noConfusion h
        · obtain ⟨m, hm⟩ := pyMax_isSome _
            (truthyTimestamps_filter_new_ne_nil inp.lastCheck raw hnonew)
          rw [cycleCore_of_new inp raw m hnonew hm] at h ⊢
          cases hres : resultsStage inp (buildDomainMap (raw.filter (isNewQuery inp.lastCheck)))
              (classifierStage inp (raw.filter (isNewQuery inp.lastCheck))
                ((buildDomainMap (raw.filter (isNewQuery inp.lastCheck))).map (fun e => e.1)))
            with
          | none =>
            rw [hres] at h
            exact Option.noConfusion h
          | some accFlag =>
            obtain ⟨acc, crashed⟩ := accFlag
            rw [hres] at h
            cases crashed with
            | true => exact Option.noConfusion h
            | false =>
              have hd : (finishCycle inp raw m acc).digest = some sb := h
              show renderDigest inp.fmtTime (finishCycle inp raw m acc).notify = some sb
              rw [(finishCycle_acc inp raw m acc).2.2.1]
              exact finishCycle_digest inp raw m acc sb hd

theorem renderDigest_subject (f : Rat → String) (ns : List Notif) (sb : String × String)
    (h : renderDigest f ns = some sb) :
    sb.1 = "Pi-hole Alert: " ++ toString ns.length ++ " Noteworthy DNS Queries Detected" := by
  rw [renderDigest] at h
  cases hm : ns.mapM (renderBlock f) with
  | none =>
    rw [hm] at h
    cases h
  | some blocks =>
    rw [hm] at h
    exact (congrArg Prod.fst (Option.some.inj h)).symm

theorem mapM_renderBlock_some (f : Rat → String) :
    ∀ ns : List Notif, (∀ n ∈ ns, n.timestamp.isSome = true) →
    ∃ blocks : List String, ns.mapM (renderBlock f) = some blocks ∧
      blocks.length = ns.length ∧
      ∀ n ∈ ns, ∃ t, n.timestamp = some t ∧
        ("- Time: " ++ f t ++ "\n" ++
          "  Client: " ++ (match n.client_ip with
            | some ip => if ip != "" then ip else "Unknown"
            | none => "Unknown") ++ "\n" ++
          "  Domain: " ++ n.domain ++ "\n" ++
          "  Category: " ++ n.category ++ "\n" ++
          "  Source: " ++ n.source ++ "\n" ++
          "  Reason: " ++ (if n.reason.truthy then pyStr n.reason else "N/A") ++ "\n")
          ∈ blocks := by
  intro ns
  induction ns with
  | nil =>
    intro hts
    exact ⟨[], rfl, rfl, fun n hn => absurd hn (List.not_mem_nil n)⟩
  | cons a l ih =>
    intro hts
    obtain ⟨t, ht⟩ := Option.isSome_iff_exists.mp (hts a (List.mem_cons_self a l))
    obtain ⟨blocks, hb, hlen, hmem⟩ := ih (fun n hn => hts n (List.mem_cons_of_mem a hn))
    have hra : renderBlock f a =
        some ("- Time: " ++ f t ++ "\n" ++
          "  Client: " ++ (match a.client_ip with
            | some ip => if ip != "" then ip else "Unknown"
            | none => "Unknown") ++ "\n" ++
          "  Domain: " ++ a.domain ++ "\n" ++
          "  Category: " ++ a.category ++ "\n" ++
          "  Source: " ++ a.source ++ "\n" ++
          "  Reason: " ++ (if a.reason.truthy then pyStr a.reason else "N/A") ++ "\n") := by
      rw [renderBlock, ht]
    refine ⟨("- Time: " ++ f t ++ "\n" ++
      "  Client: " ++ (match a.client_ip with
        | some ip => if ip != "" then ip else "Unknown"
        | none => "Unknown") ++ "\n" ++
      "  Domain: " ++ a.domain ++ "\n" ++
      "  Category: " ++ a.category ++ "\n" ++
      "  Source: " ++ a.source ++ "\n" ++
      "  Reason: " ++ (if a.reason.truthy then pyStr a.reason else "N/A") ++ "\n")
      :: blocks, ?_, ?_, ?_⟩
    · rw [List.mapM_cons, hra, hb]
      rfl
    · simp only [List.length_cons, hlen]
    · intro n hn
      rcases List.mem_cons.mp hn with heq | hmem2
      · subst heq
        exact ⟨t, ht, List.mem_cons_self _ _⟩
      · obtain ⟨t2, ht2, hin⟩ := hmem n hmem2
        exact ⟨t2, ht2, List.mem_cons_of_mem _ hin⟩

/-! ## Claim C9 -/

/-- Claim C9 (amended): for a non-empty candidate list whose
timestamps are all present, every block renders and the digest is
produced; its subject is the f-string "Pi-hole Alert: <N> Noteworthy
DNS Queries Detected" — carrying the "Pi-hole Alert: " prefix the
claim omits — and its body is the header line joined with one block
per candidate listing the formatted time, the client IP or "Unknown",
the domain, the category string, the source, and the reason or "N/A".
The final conjunct lifts the subject shape to every cycle that renders
a digest. -/
theorem C9_digest_shape (fmtTime : Rat → String) (ns : List Notif)
    (hne : ns ≠ []) (hts : ∀ n ∈ ns, n.timestamp.isSome = true) :
    (∃ blocks : List String,
      ns.mapM (renderBlock fmtTime) = some blocks ∧
      blocks.length = ns.length ∧
      renderDigest fmtTime ns =
        some ("Pi-hole Alert: " ++ toString ns.length ++ " Noteworthy DNS Queries Detected",
          String.intercalate "\n"
            ("Pi-hole AI Analyzer detected the following noteworthy DNS queries:\n" :: blocks)) ∧
      (∀ n ∈ ns, ∃ t, n.timestamp = some t ∧
        ("- Time: " ++ fmtTime t ++ "\n" ++
          "  Client: " ++ (match n.client_ip with
            | some ip => if ip != "" then ip else "Unknown"
            | none => "Unknown") ++ "\n" ++
          "  Domain: " ++ n.domain ++ "\n" ++
          "  Category: " ++ n.category ++ "\n" ++
          "  Source: " ++ n.source ++ "\n" ++
          "  Reason: " ++ (if n.reason.truthy then pyStr n.reason else "N/A") ++ "\n")
          ∈ blocks)) ∧
    (∀ (inp : CycleInput) (sb : String × String),
      (run_analysis_cycle inp).digest = some sb →
      sb.1 = "Pi-hole Alert: " ++ toString (run_analysis_cycle inp).notify.length
        ++ " Noteworthy DNS Queries Detected") := by
  refine ⟨?_, ?_⟩
  · obtain ⟨blocks, hb, hlen, hmem⟩ := mapM_renderBlock_some fmtTime ns hts
    refine ⟨blocks, hb, hlen, ?_, hmem⟩
    rw [renderDigest, hb]
  · intro inp sb h
    exact renderDigest_subject inp.fmtTime _ sb (cycle_digest_shape inp sb h)

/-- Claim C9 counterexample: for a single candidate the rendered
subject is "Pi-hole Alert: 1 Noteworthy DNS Queries Detected", not the
claimed "1 Noteworthy DNS Queries Detected": the claim omits the
"Pi-hole Alert: " prefix of the subject f-string. -/
theorem C9_counterexample :
    (renderDigest (fun _ => "2026-01-01 00:00:00") [notifGoodA]).map (fun sb => sb.1)
      = some "Pi-hole Alert: 1 Noteworthy DNS Queries Detected" ∧
    (renderDigest (fun _ => "2026-01-01 00:00:00") [notifGoodA]).map (fun sb => sb.1)
      ≠ some "1 Noteworthy DNS Queries Detected" := by
  constructor
  · rfl
  · intro h
    rw [show (renderDigest (fun _ => "2026-01-01 00:00:00") [notifGoodA]).map (fun sb => sb.1)
        = some "Pi-hole Alert: 1 Noteworthy DNS Queries Detected" from rfl] at h
    exact absurd (Option.some.inj h) (by decide)

/-- Claim C9 witness: the worldGood cycle renders a digest and its
subject carries the candidate count with the "Pi-hole Alert: "
prefix. -/
theorem C9_digest_shape_witness :
    (run_analysis_cycle worldGood).digest.map (fun sb => sb.1)
      = some ("Pi-hole Alert: " ++ toString (run_analysis_cycle worldGood).notify.length
        ++ " Noteworthy DNS Queries Detected") := by
  have h := (C9_digest_shape worldGood.fmtTime [notifGoodA] (List.cons_ne_nil _ _)
    (fun n hn => by rw [List.mem_singleton] at hn; subst hn; rfl)).2 worldGood
  cases hd : (run_analysis_cycle worldGood).digest with
  | none =>
    have hsome : (run_analysis_cycle worldGood).digest.isSome = true := rfl
    rw [hd] at hsome
    cases hsome
  | some sb =>
    have hs1 := h sb hd
    show some sb.1 = _
    exact congrArg some hs1

/-! ## Claim C3 -/

/-- Claim C3 (amended): an authentication failure ends the cycle at
once with no effect of any kind, and so does a fetch failure; but
these are NOT the only ways the cycle can end without a persisted side
effect — a crash on a malformed classifier reply item can also abort
before anything is written (see the counterexample).  The third
conjunct states the positive counterpart: once authentication and
fetch succeed on a non-empty normalized batch, a non-crashing cycle
always writes the watermark. -/
theorem C3_abort_conditions (inp : CycleInput) :
    (inp.auth = none → run_analysis_cycle inp = noEffects .authFailed) ∧
    (∀ sid, inp.auth = some sid → inp.fetch = none →
      run_analysis_cycle inp = noEffects .fetchFailed) ∧
    (∀ sid raw, inp.auth = some sid → inp.fetch = some raw → raw ≠ [] →
      (∀ q ∈ raw, normalizedQ q = true) →
      (run_analysis_cycle inp).exitPath ≠ .crashed →
      (run_analysis_cycle inp).watermarkWrite.isSome = true) := by
  refine ⟨?_, ?_, ?_⟩
  · intro h
    simp only [run_analysis_cycle, h]
  · intro sid h1 h2
    simp only [run_analysis_cycle, h1, h2]
  · intro sid raw h1 h2 hraw hnorm hnc
    by_cases hnonew : raw.filter (isNewQuery inp.lastCheck) = []
    · obtain ⟨M, hM, hw, hx⟩ := cycle_write_no_new inp sid raw h1 h2 hraw hnorm hnonew
      rw [hw]
      rfl
    · obtain ⟨m, hm⟩ := pyMax_isSome _
        (truthyTimestamps_filter_new_ne_nil inp.lastCheck raw hnonew)
      obtain ⟨hw, hx⟩ := cycle_write_of_new inp sid raw m h1 h2 hnonew hm hnc
      rw [hw]
      rfl

/-- Claim C3 counterexample: a cycle whose classifier reply is the
JSON list [1] crashes in the findings-map comprehension after
authentication and fetch both succeeded, with no persisted side effect
at all — so auth and fetch failure are not the only zero-effect
aborts. -/
theorem C3_counterexample :
    worldCrashOne.auth.isSome = true ∧ worldCrashOne.fetch.isSome = true ∧
    (run_analysis_cycle worldCrashOne).watermarkWrite = none ∧
    (run_analysis_cycle worldCrashOne).attempted = [] ∧
    (run_analysis_cycle worldCrashOne).stored = [] ∧
    (run_analysis_cycle worldCrashOne).notify = [] ∧
    (run_analysis_cycle worldCrashOne).digest = none ∧
    (run_analysis_cycle worldCrashOne).emailResult = none ∧
    (run_analysis_cycle worldCrashOne).exitPath = ExitPath.crashed :=
  ⟨rfl, rfl, rfl, rfl, rfl, rfl, rfl, rfl, rfl⟩

/-- Claim C3 witness: the no-model world authenticates and fetches a
non-empty normalized batch, does not crash, and indeed writes the
watermark. -/
theorem C3_abort_conditions_witness :
    (run_analysis_cycle worldNoModel).watermarkWrite.isSome = true :=
  (C3_abort_conditions worldNoModel).2.2 "sid" [qNewA, qNewA2, qOldB] rfl rfl
    (List.cons_ne_nil _ _) (by decide)
    (fun h => absurd h (by decide))

/-! ## Classifier-failure resilience (claim C2) -/

theorem classifierStage_of_fail (inp : CycleInput)
    (hfail : inp.modelConfigured = false ∨ inp.apiReply = none ∨
      (∃ text, inp.apiReply = some text ∧ parseReply text = none))
    (nq : List PQuery) (ud : List String) :
    classifierStage inp nq ud = none ∨ classifierStage inp nq ud = some [] := by
  rw [classifierStage]
  by_cases hud : ud.isEmpty
  · simp only [hud, Bool.not_true, Bool.false_eq_true, if_false]
    exact Or.inl trivial
  · have hud2 : ud.isEmpty = false := by
      cases hx : ud.isEmpty
      · rfl
      · exact absurd hx hud
    simp only [hud2, Bool.not_false, if_true]
    rw [analyze_dns_batch.eq_def]
    cases hmc : inp.modelConfigured with
    | false =>
      simp only [Bool.not_false, if_true]
      exact Or.inl trivial
    | true =>
      simp only [Bool.not_true, Bool.false_eq_true, if_false]
      by_cases hdl : (nq.filter (fun q =>
          match q.domain with
          | some d => ud.contains d
          | none => false)).isEmpty
      · simp only [hdl, if_true]
        exact Or.inr trivial
      · have hdl2 : (nq.filter (fun q =>
            match q.domain with
            | some d => ud.contains d
            | none => false)).isEmpty = false := by
          cases hx : (nq.filter (fun q =>
              match q.domain with
              | some d => ud.contains d
              | none => false)).isEmpty
          · rfl
          · exact absurd hx hdl
        simp only [hdl2, Bool.false_eq_true, if_false]
        by_cases hsud : (sortedUniqueDomains (nq.filter (fun q =>
            match q.domain with
            | some d => ud.contains d
            | none => false))).isEmpty
        · simp only [hsud, if_true]
          exact Or.inr trivial
        · have hsud2 : (sortedUniqueDomains (nq.filter (fun q =>
              match q.domain with
              | some d => ud.contains d
              | none => false))).isEmpty = false := by
            cases hx : (sortedUniqueDomains (nq.filter (fun q =>
                match q.domain with
                | some d => ud.contains d
                | none => false))).isEmpty
            · rfl
            · exact absurd hx hsud
          simp only [hsud2, Bool.false_eq_true, if_false]
          rcases hfail with hm | hr | ⟨text, htext, hparse⟩
          · rw [hm] at hmc
            exact absurd hmc (by decide)
          · rw [hr]
            exact Or.inl rfl
          · rw [htext]
            exact Or.inl hparse

theorem resultsStage_of_fail (inp : CycleInput) (dmap : List (String × List Ctx))
    (ai : Option (List Json)) (hai : ai = none ∨ ai = some []) :
    resultsStage inp dmap ai = some (⟨[], [], [], []⟩, false) := by
  rcases hai with h | h
  · subst h
    rfl
  · subst h
    rfl

/-! ## Claim C2 -/

/-- Claim C2: with a non-empty set of new queries, a classifier
failure of any kind — model unconfigured or unavailable, reply not
decodable as JSON, or decodable but not a list (parseReply folds the
last two into one failure) — does not abort the cycle: nothing reaches
the INSERT, nothing is stored, no notification candidate is produced,
and the watermark is still written with the maximum timestamp over the
new queries and the cycle completes; the final conjunct states that
any non-crashing cycle on the same batch and loaded watermark — in
particular a fully successful one — writes exactly the same value. -/
theorem C2_classifier_failure_resilient (inp : CycleInput) (sid : String)
    (raw : List PQuery)
    (hauth : inp.auth = some sid) (hfetch : inp.fetch = some raw)
    (hnew : raw.filter (isNewQuery inp.lastCheck) ≠ [])
    (hfail : inp.modelConfigured = false ∨ inp.apiReply = none ∨
      (∃ text, inp.apiReply = some text ∧ parseReply text = none)) :
    ∃ m, pyMax (truthyTimestamps (raw.filter (isNewQuery inp.lastCheck))) = some m ∧
      (run_analysis_cycle inp).attempted = [] ∧
      (run_analysis_cycle inp).stored = [] ∧
      (run_analysis_cycle inp).notify = [] ∧
      (run_analysis_cycle inp).watermarkWrite = some m ∧
      (run_analysis_cycle inp).exitPath = .completed ∧
      (∀ inp2 : CycleInput, inp2.auth.isSome = true → inp2.fetch = some raw →
        inp2.lastCheck = inp.lastCheck →
        (run_analysis_cycle inp2).exitPath ≠ .crashed →
        (run_analysis_cycle inp2).watermarkWrite = some m) := by
  obtain ⟨m, hm⟩ := pyMax_isSome _
    (truthyTimestamps_filter_new_ne_nil inp.lastCheck raw hnew)
  have hrs : resultsStage inp (buildDomainMap (raw.filter (isNewQuery inp.lastCheck)))
      (classifierStage inp (raw.filter (isNewQuery inp.lastCheck))
        ((buildDomainMap (raw.filter (isNewQuery inp.lastCheck))).map (fun e => e.1)))
      = some (⟨[], [], [], []⟩, false) :=
    resultsStage_of_fail inp _ _ (classifierStage_of_fail inp hfail _ _)
  refine ⟨m, hm, ?_⟩
  rw [run_eq_core inp sid raw hauth hfetch, cycleCore_of_new inp raw m hnew hm, hrs]
  have hfc : finishCycle inp raw m ⟨[], [], [], []⟩
      = finishWatermark inp raw m ⟨[], [], [], []⟩ none none := rfl
  have hfw := finishWatermark_write inp raw m ⟨[], [], [], []⟩ none none
    (latest_gt_last inp.lastCheck raw m hm) (pyMax_raw_eq_latest inp.lastCheck raw m hm)
  refine ⟨?_, ?_, ?_, ?_, ?_, ?_⟩
  · show (finishCycle inp raw m ⟨[], [], [], []⟩).attempted = []
    rw [(finishCycle_acc inp raw m ⟨[], [], [], []⟩).1]
  · show (finishCycle inp raw m ⟨[], [], [], []⟩).stored = []
    rw [(finishCycle_acc inp raw m ⟨[], [], [], []⟩).2.1]
  · show (finishCycle inp raw m ⟨[], [], [], []⟩).notify = []
    rw [(finishCycle_acc inp raw m ⟨[], [], [], []⟩).2.2.1]
  · show (finishCycle inp raw m ⟨[], [], [], []⟩).watermarkWrite = some m
    rw [hfc]
    exact hfw.1
  · show (finishCycle inp raw m ⟨[], [], [], []⟩).exitPath = .completed
    rw [hfc]
    exact hfw.2
  · intro inp2 h2a h2f h2l h2nc
    obtain ⟨sid2, hsid2⟩ := Option.isSome_iff_exists.mp h2a
    have hnew2 : raw.filter (isNewQuery inp2.lastCheck) ≠ [] := by
      rw [h2l]
      exact hnew
    have hm2 : pyMax (truthyTimestamps (raw.filter (isNewQuery inp2.lastCheck)))
        = some m := by
      rw [h2l]
      exact hm
    exact (cycle_write_of_new inp2 sid2 raw m hsid2 h2f hnew2 hm2 h2nc).1

/-- Claim C2 witness: the undecodable-reply world stores nothing,
notifies nothing, and still writes watermark 120 (the maximum new
timestamp) and completes. -/
theorem C2_classifier_failure_resilient_witness :
    ∃ m, pyMax (truthyTimestamps (([qNewA, qNewA2, qOldB] : List PQuery).filter
        (isNewQuery worldBadJson.lastCheck))) = some m ∧
      (run_analysis_cycle worldBadJson).attempted = [] ∧
      (run_analysis_cycle worldBadJson).stored = [] ∧
      (run_analysis_cycle worldBadJson).notify = [] ∧
      (run_analysis_cycle worldBadJson).watermarkWrite = some m ∧
      (run_analysis_cycle worldBadJson).exitPath = .completed ∧
      (∀ inp2 : CycleInput, inp2.auth.isSome = true →
        inp2.fetch = some [qNewA, qNewA2, qOldB] →
        inp2.lastCheck = worldBadJson.lastCheck →
        (run_analysis_cycle inp2).exitPath ≠ .crashed →
        (run_analysis_cycle inp2).watermarkWrite = some m) :=
  C2_classifier_failure_resilient worldBadJson "sid" [qNewA, qNewA2, qOldB] rfl rfl
    (by decide) (Or.inr (Or.inr ⟨"I am not JSON", rfl, rfl⟩))

end PiholeAI
